import Mathlib

/-
Verification development for the miniascape cellular-automaton engine.

The Rust core (src/board.rs, src/world.rs, src/rule.rs, src/lifegame.rs) is
shallowly embedded: `Vec<Chunk<T>>` becomes `List (Chunk T)`, in-place writes
through `&mut` references become explicit state-passing functions returning the
new value, `anyhow::Result` becomes `Except`/`Option`, and an `assert!` failure
(a panic) is modelled as a distinguished failure outcome.  `usize` values are
modelled as `Nat` and `isize` values as `Int`; the `as usize` cast in
`rule.rs` is modelled by `Int.toNat`, which agrees with the Rust cast on the
non-negative in-range coordinates covered by the statements below.  The file
is organised as definitions first, theorems second.
-/

set_option maxRecDepth 65536

namespace Miniascape

/-! ## Definitions -/

/-- src/board.rs: `pub(crate) const CHUNK_LEN: usize = 16;` -/
def CHUNK_LEN : Nat := 16

/-- src/board.rs: `pub(crate) const CHUNK_SIZE: usize = CHUNK_LEN * CHUNK_LEN;` -/
def CHUNK_SIZE : Nat := CHUNK_LEN * CHUNK_LEN

/-- src/board.rs: `Chunk<T>` holds `cells: [T; CHUNK_SIZE]`, row-major.
The fixed-size array is modelled as a list; well-formed chunks have
`cells.length = CHUNK_SIZE`. -/
structure Chunk (T : Type) where
  cells : List T
deriving DecidableEq

instance {T : Type} [Inhabited T] : Inhabited (Chunk T) :=
  ⟨⟨List.replicate CHUNK_SIZE default⟩⟩

namespace Chunk

variable {T : Type}

/-- src/board.rs `Chunk::init`: every cell set to the given initial value. -/
def init (i : T) : Chunk T := ⟨List.replicate CHUNK_SIZE i⟩

/-- src/board.rs `Chunk::cell_at`: `&self.cells[y * CHUNK_LEN + x]`. -/
def cell_at [Inhabited T] (c : Chunk T) (x y : Nat) : T :=
  c.cells.getD (y * CHUNK_LEN + x) default

/-- src/board.rs `Chunk::cell_at_mut` used as the target of an assignment:
writing value `v` through `*chunk.cell_at_mut(x, y) = v`. -/
def set_cell (c : Chunk T) (x y : Nat) (v : T) : Chunk T :=
  ⟨c.cells.set (y * CHUNK_LEN + x) v⟩

/-- Well-formed chunk: the backing array has exactly CHUNK_SIZE cells. -/
def wf (c : Chunk T) : Prop := c.cells.length = CHUNK_SIZE

end Chunk

/-- src/board.rs: `Grid<T>` with current generation `chunks` and scratch
`buffer`, both `Vec<Chunk<T>>` in row-major chunk order
(`chunks[cy * num_chunks_x + cx]`). -/
structure Grid (T : Type) where
  num_chunks_x : Nat
  num_chunks_y : Nat
  chunks : List (Chunk T)
  buffer : List (Chunk T)
deriving DecidableEq

/-! ### Generic list-write machinery

The Rust expansion, rotation and update code runs nested `for` loops whose
bodies assign vector elements.  `loopPairs` is the iteration domain of a
double loop and `writeAll` is the loop body assigning `l[e j i] = F j i`. -/

/-- The (j, i) iteration domain of a nested `for j in 0..ny, for i in 0..nx` loop. -/
def loopPairs (ny nx : Nat) : List (Nat × Nat) :=
  (List.range ny).flatMap fun j => (List.range nx).map fun i => (j, i)

/-- A double loop writing `l[e j i] = F j i` for each (j, i) in `P`. -/
def writeAll {α : Type} (e : Nat → Nat → Nat) (F : Nat → Nat → α)
    (P : List (Nat × Nat)) (l : List α) : List α :=
  P.foldl (fun acc p => acc.set (e p.1 p.2) (F p.1 p.2)) l

/-- `Vec::resize(len, v)`: extend with copies of `v` or truncate to `len`. -/
def vecResize {α : Type} (l : List α) (len : Nat) (v : α) : List α :=
  if l.length ≤ len then l ++ List.replicate (len - l.length) v else l.take len

namespace Grid

variable {T : Type}

/-- src/board.rs `Grid::init`. -/
def init (x_chunks y_chunks : Nat) (i : T) : Grid T :=
  { num_chunks_x := x_chunks
    num_chunks_y := y_chunks
    chunks := List.replicate (x_chunks * y_chunks) (Chunk.init i)
    buffer := List.replicate (x_chunks * y_chunks) (Chunk.init i) }

/-- src/board.rs `Grid::width`: `num_chunks_x * CHUNK_LEN` (cells, not chunks). -/
def width (g : Grid T) : Nat := g.num_chunks_x * CHUNK_LEN

/-- src/board.rs `Grid::height`: `num_chunks_y * CHUNK_LEN` (cells, not chunks). -/
def height (g : Grid T) : Nat := g.num_chunks_y * CHUNK_LEN

/-- src/board.rs `Grid::chunk_at`: `&self.chunks[y * self.num_chunks_x + x]`
(asserted in range; reads outside the list fall back to the default chunk). -/
def chunk_at [Inhabited T] (g : Grid T) (x y : Nat) : Chunk T :=
  g.chunks.getD (y * g.num_chunks_x + x) default

/-- src/board.rs `Grid::cell_at`: chunk/local decomposition
`chx = x / 16, clx = x % 16, chy = y / 16, cly = y % 16`. -/
def cell_at [Inhabited T] (g : Grid T) (x y : Nat) : T :=
  ((g.chunks.getD ((y / CHUNK_LEN) * g.num_chunks_x + x / CHUNK_LEN) default).cell_at
    (x % CHUNK_LEN) (y % CHUNK_LEN))

/-- src/board.rs `Grid::cell_at_mut` used as assignment target: writes `v`
into the current generation at cell (x, y). -/
def set_cell [Inhabited T] (g : Grid T) (x y : Nat) (v : T) : Grid T :=
  let idx := (y / CHUNK_LEN) * g.num_chunks_x + x / CHUNK_LEN
  { g with chunks :=
      g.chunks.set idx ((g.chunks.getD idx default).set_cell (x % CHUNK_LEN) (y % CHUNK_LEN) v) }

/-- Reading the scratch buffer at cell (x, y) (same decomposition as
`bufcell_at_mut` in src/board.rs). -/
def bufcell_at [Inhabited T] (g : Grid T) (x y : Nat) : T :=
  ((g.buffer.getD ((y / CHUNK_LEN) * g.num_chunks_x + x / CHUNK_LEN) default).cell_at
    (x % CHUNK_LEN) (y % CHUNK_LEN))

/-- src/board.rs `Grid::bufcell_at_mut` used as assignment target: writes `v`
into the scratch buffer at cell (x, y). -/
def set_bufcell [Inhabited T] (g : Grid T) (x y : Nat) (v : T) : Grid T :=
  let idx := (y / CHUNK_LEN) * g.num_chunks_x + x / CHUNK_LEN
  { g with buffer :=
      g.buffer.set idx ((g.buffer.getD idx default).set_cell (x % CHUNK_LEN) (y % CHUNK_LEN) v) }

/-- src/board.rs `Grid::swap_buffer`: `std::mem::swap(&mut self.chunks, &mut self.buffer)`. -/
def swap_buffer (g : Grid T) : Grid T :=
  { g with chunks := g.buffer, buffer := g.chunks }

/-- Shape invariant of the spec: both chunk arrays have exactly
`num_chunks_x * num_chunks_y` chunks. -/
def wfShape (g : Grid T) : Prop :=
  g.chunks.length = g.num_chunks_x * g.num_chunks_y ∧
  g.buffer.length = g.num_chunks_x * g.num_chunks_y

/-- Full well-formedness: shape invariant plus every chunk holding exactly
CHUNK_SIZE cells. -/
def wf (g : Grid T) : Prop :=
  g.wfShape ∧ (∀ c ∈ g.chunks, c.wf) ∧ (∀ c ∈ g.buffer, c.wf)

/-- src/board.rs `Grid::expand_x`: early-return on n = 0; otherwise allocate
`(num_chunks_x + |n|) * num_chunks_y` chunks filled with `Chunk::init(init)`,
copy every old chunk (i, j) to index `j * (num_chunks_x + |n|) + (i + x_ofs)`
with `x_ofs = |n|` when n < 0 and 0 otherwise, resize `buffer` to the new
chunk count, and add `|n|` to `num_chunks_x`. -/
def expand_x [Inhabited T] (g : Grid T) (n : Int) (init : T) : Grid T :=
  if n = 0 then g
  else
    let na := n.natAbs
    let x_ofs := if 0 ≤ n then 0 else na
    let new_chunks := writeAll
      (fun j i => j * (g.num_chunks_x + na) + (i + x_ofs))
      (fun j i => g.chunk_at i j)
      (loopPairs g.num_chunks_y g.num_chunks_x)
      (List.replicate ((g.num_chunks_x + na) * g.num_chunks_y) (Chunk.init init))
    { num_chunks_x := g.num_chunks_x + na
      num_chunks_y := g.num_chunks_y
      chunks := new_chunks
      buffer := vecResize g.buffer ((g.num_chunks_x + na) * g.num_chunks_y) (Chunk.init init) }

/-- src/board.rs `Grid::expand_y`: as `expand_x` but along the chunk rows:
old chunk (i, j) goes to index `(j + y_ofs) * num_chunks_x + i`. -/
def expand_y [Inhabited T] (g : Grid T) (n : Int) (init : T) : Grid T :=
  if n = 0 then g
  else
    let na := n.natAbs
    let y_ofs := if 0 ≤ n then 0 else na
    let new_chunks := writeAll
      (fun j i => (j + y_ofs) * g.num_chunks_x + i)
      (fun j i => g.chunk_at i j)
      (loopPairs g.num_chunks_y g.num_chunks_x)
      (List.replicate (g.num_chunks_x * (g.num_chunks_y + na)) (Chunk.init init))
    { num_chunks_x := g.num_chunks_x
      num_chunks_y := g.num_chunks_y + na
      chunks := new_chunks
      buffer := vecResize g.buffer (g.num_chunks_x * (g.num_chunks_y + na)) (Chunk.init init) }

end Grid

/-! ### Clear and randomize (src/board.rs)

`Rule::default_state()` is modelled as a fixed `Except E T` value (each
invocation of the Rust method returns the same result for a fixed rule
configuration), and `Rule::randomize(rng)` as a state-passing step function
`Rng → Except E (T × Rng)` on an abstract rng state. -/

/-- src/board.rs `Chunk::clear`: `for c in cells { *c = rule.default_state()? }`;
on error the loop aborts before the first write. -/
def clearCells {T E : Type} (ds : Except E T) : List T → List T × Option E
  | [] => ([], none)
  | c :: rest =>
    match ds with
    | Except.error e => (c :: rest, some e)
    | Except.ok v =>
      match clearCells ds rest with
      | (rest', oe) => (v :: rest', oe)

def Chunk.clear {T E : Type} (ds : Except E T) (c : Chunk T) : Chunk T × Option E :=
  match clearCells ds c.cells with
  | (cells', oe) => (⟨cells'⟩, oe)

/-- src/board.rs `Grid::clear`: `for ch in chunks { ch.clear(rule)? }`;
stops at the first failing chunk, keeping earlier results. -/
def clearChunks {T E : Type} (ds : Except E T) : List (Chunk T) → List (Chunk T) × Option E
  | [] => ([], none)
  | ch :: rest =>
    match Chunk.clear ds ch with
    | (ch', some e) => (ch' :: rest, some e)
    | (ch', none) =>
      match clearChunks ds rest with
      | (rest', oe) => (ch' :: rest', oe)

def Grid.clear {T E : Type} (ds : Except E T) (g : Grid T) : Grid T × Option E :=
  match clearChunks ds g.chunks with
  | (chunks', oe) => ({ g with chunks := chunks' }, oe)

/-- src/board.rs `Chunk::randomize`: `for c in cells { *c = rule.randomize(rng)? }`,
threading the rng; on error the remaining cells are untouched. -/
def randCells {T E Rng : Type} (rnd : Rng → Except E (T × Rng)) :
    List T → Rng → List T × Rng × Option E
  | [], r => ([], r, none)
  | c :: rest, r =>
    match rnd r with
    | Except.error e => (c :: rest, r, some e)
    | Except.ok (v, r') =>
      match randCells rnd rest r' with
      | (rest', r'', oe) => (v :: rest', r'', oe)

def Chunk.randomize {T E Rng : Type} (rnd : Rng → Except E (T × Rng)) (c : Chunk T)
    (r : Rng) : Chunk T × Rng × Option E :=
  match randCells rnd c.cells r with
  | (cells', r', oe) => (⟨cells'⟩, r', oe)

/-- src/board.rs `Grid::randomize`: `for ch in chunks { ch.randomize(rule, rng)? }`. -/
def randChunks {T E Rng : Type} (rnd : Rng → Except E (T × Rng)) :
    List (Chunk T) → Rng → List (Chunk T) × Rng × Option E
  | [], r => ([], r, none)
  | ch :: rest, r =>
    match Chunk.randomize rnd ch r with
    | (ch', r', some e) => (ch' :: rest, r', some e)
    | (ch', r', none) =>
      match randChunks rnd rest r' with
      | (rest', r'', oe) => (ch' :: rest', r'', oe)

def Grid.randomize {T E Rng : Type} (rnd : Rng → Except E (T × Rng)) (g : Grid T)
    (r : Rng) : Grid T × Rng × Option E :=
  match randChunks rnd g.chunks r with
  | (chunks', r', oe) => ({ g with chunks := chunks' }, r', oe)

/-! ### ClipBoard (src/board.rs) -/

/-- src/board.rs `ClipBoard<T>`: a small `x`-by-`y` rectangle of
`Option<T>` cells, `None` meaning masked, indexed `cells[x + y * self.x]`. -/
structure ClipBoard (T : Type) where
  x : Nat
  y : Nat
  cells : List (Option T)
deriving DecidableEq

namespace ClipBoard

variable {T : Type}

/-- src/board.rs `ClipBoard::new`: all cells masked. -/
def new (x y : Nat) : ClipBoard T := ⟨x, y, List.replicate (x * y) none⟩

/-- src/board.rs `ClipBoard::width`. -/
def width (cb : ClipBoard T) : Nat := cb.x

/-- src/board.rs `ClipBoard::height`. -/
def height (cb : ClipBoard T) : Nat := cb.y

/-- src/board.rs `ClipBoard::cell_at`: `&self.cells[x + y * self.x]`
(asserted in range). -/
def cell_at (cb : ClipBoard T) (x y : Nat) : Option T :=
  cb.cells.getD (x + y * cb.x) none

/-- Well-formed clipboard: backing vector has exactly `x * y` cells (as
established by `new` and `from_vec`). -/
def wf (cb : ClipBoard T) : Prop := cb.cells.length = cb.x * cb.y

/-- src/board.rs `ClipBoard::rotate`: build `rotated = ClipBoard::new(self.y, self.x)`
and assign `*rotated.cell_at_mut(i, j) = self.cell_at(self.x - 1 - j, i)` for
every j below `rotated.height()` and i below `rotated.width()`; the result
replaces `self`. -/
def rotate (cb : ClipBoard T) : ClipBoard T :=
  { x := cb.y
    y := cb.x
    cells := writeAll
      (fun j i => i + j * cb.y)
      (fun j i => cb.cell_at (cb.x - 1 - j) i)
      (loopPairs cb.x cb.y)
      (List.replicate (cb.y * cb.x) none) }

end ClipBoard

/-- src/board.rs `Grid::paste_clipboard`: for j in 0..cb.height(), i in
0..cb.width(), every unmasked clipboard cell is written through
`Grid::cell_at_mut(i + xofs, j + yofs)`.  `cell_at_mut` asserts that the
target is inside the grid; the assertion failure (a Rust panic) is modelled
by returning `true` in the second component, together with the grid state at
the moment of the panic. -/
def pasteLoop {T : Type} [Inhabited T] (cb : ClipBoard T) (xofs yofs : Nat) :
    List (Nat × Nat) → Grid T → Grid T × Bool
  | [], g => (g, false)
  | p :: rest, g =>
    match cb.cell_at p.2 p.1 with
    | none => pasteLoop cb xofs yofs rest g
    | some c =>
      if p.2 + xofs < g.width ∧ p.1 + yofs < g.height then
        pasteLoop cb xofs yofs rest (g.set_cell (p.2 + xofs) (p.1 + yofs) c)
      else (g, true)

def Grid.paste_clipboard {T : Type} [Inhabited T] (g : Grid T) (xofs yofs : Nat)
    (cb : ClipBoard T) : Grid T × Bool :=
  pasteLoop cb xofs yofs (loopPairs cb.y cb.x) g

/-! ### Neighborhoods (src/rule.rs) -/

/-- src/rule.rs `VonNeumannNeighborhood::neighbors`. -/
def VonNeumannNeighborhood.neighbors (x y w h : Int) : List (Nat × Nat) :=
  let xprev := (if x = 0 then w - 1 else x - 1).toNat
  let xnext := (if x = w - 1 then 0 else x + 1).toNat
  let yprev := (if y = 0 then h - 1 else y - 1).toNat
  let ynext := (if y = h - 1 then 0 else y + 1).toNat
  let x := x.toNat
  let y := y.toNat
  [(x, yprev), (xnext, y), (xprev, y), (x, ynext)]

/-- src/rule.rs `MooreNeighborhood::neighbors`. -/
def MooreNeighborhood.neighbors (x y w h : Int) : List (Nat × Nat) :=
  let xprev := (if x = 0 then w - 1 else x - 1).toNat
  let xnext := (if x = w - 1 then 0 else x + 1).toNat
  let yprev := (if y = 0 then h - 1 else y - 1).toNat
  let ynext := (if y = h - 1 then 0 else y + 1).toNat
  let x := x.toNat
  let y := y.toNat
  [(xprev, yprev), (x, yprev), (xnext, yprev),
   (xprev, y),                 (xnext, y),
   (xprev, ynext), (x, ynext), (xnext, ynext)]

/-- src/rule.rs `HexGridNeighborhood::neighbors` (row-parity dependent). -/
def HexGridNeighborhood.neighbors (x y w h : Int) : List (Nat × Nat) :=
  let xprev := (if x = 0 then w - 1 else x - 1).toNat
  let xnext := (if x = w - 1 then 0 else x + 1).toNat
  let yprev := (if y = 0 then h - 1 else y - 1).toNat
  let ynext := (if y = h - 1 then 0 else y + 1).toNat
  let xn := x.toNat
  let yn := y.toNat
  if y % 2 = 0 then
    [(xprev, yprev), (xn, yprev),
     (xprev, yn), (xnext, yn),
     (xprev, ynext), (xn, ynext)]
  else
    [(xn, yprev), (xnext, yprev),
     (xprev, yn), (xnext, yn),
     (xn, ynext), (xnext, ynext)]

/-! ### World2D::update (src/world.rs)

A rule is a record of the pieces `World2D::update` consumes: the fallible
per-cell transition, the neighborhood function of its topology, and
`iteration_per_step`. -/

structure RuleM (T E : Type) where
  update : T → List T → Except E T
  neighbors : Int → Int → Int → Int → List (Nat × Nat)
  iteration_per_step : Nat

/-- The value `self.rule.update(cell_at(x, y), neighbors mapped to cells)`
computed inside the inner loop of `World2D::update`. -/
def updVal {T E : Type} [Inhabited T] (rule : RuleM T E) (g : Grid T) (x y : Nat) :
    Except E T :=
  rule.update (g.cell_at x y)
    ((rule.neighbors x y g.width g.height).map fun p => g.cell_at p.1 p.2)

/-- The absolute cell coordinates visited by the four nested loops of
`World2D::update` (chunk row, chunk column, local row, local column). -/
def cellOrder {T : Type} (g : Grid T) : List (Nat × Nat) :=
  (List.range g.num_chunks_y).flatMap fun cj =>
    (List.range g.num_chunks_x).flatMap fun ci =>
      (List.range CHUNK_LEN).flatMap fun j =>
        (List.range CHUNK_LEN).map fun i => (ci * CHUNK_LEN + i, cj * CHUNK_LEN + j)

/-- One full-grid pass of `World2D::update`: each visited cell's update
result is written into the scratch buffer; a per-cell error aborts the pass
(the `?` operator) returning the state reached so far. -/
def runCells {T E : Type} [Inhabited T] (rule : RuleM T E) :
    List (Nat × Nat) → Grid T → Grid T × Option E
  | [], g => (g, none)
  | p :: rest, g =>
    match updVal rule g p.1 p.2 with
    | Except.error e => (g, some e)
    | Except.ok v => runCells rule rest (g.set_bufcell p.1 p.2 v)

/-- The `for _ in 0..iteration_per_step` loop of `World2D::update`: a full
pass followed by `swap_buffer()`, an error propagating out immediately. -/
def runSteps {T E : Type} [Inhabited T] (rule : RuleM T E) :
    Nat → Grid T → Grid T × Option E
  | 0, g => (g, none)
  | Nat.succ n, g =>
    match runCells rule (cellOrder g) g with
    | (g', some e) => (g', some e)
    | (g', none) => runSteps rule n g'.swap_buffer

/-- src/world.rs `World2D::update` acting on the board (the rule is read-only
there); the `Option E` component is the returned error, `none` meaning `Ok(())`. -/
def World2D.update {T E : Type} [Inhabited T] (rule : RuleM T E) (g : Grid T) :
    Grid T × Option E :=
  runSteps rule rule.iteration_per_step g

/-! ### Specification-side description of one micro-step

`specStep` is the spec's description of one fully-swapped generation (spec
section 4.3): every cell of the new current generation is
`Rule.update(old cell, neighbor states in the Neighborhood's order)` and the
scratch buffer afterwards holds the old generation.  It is the second,
spec-facing definition of the refinement claim C1, compared against the
code-derived `World2D.update` above. -/

/-- A full chunk array whose cell at absolute coordinate (x, y) is `f x y`. -/
def buildCells {T : Type} (g : Grid T) (f : Nat → Nat → T) : List (Chunk T) :=
  (List.range (g.num_chunks_x * g.num_chunks_y)).map fun c =>
    ⟨(List.range CHUNK_SIZE).map fun k =>
      f ((c % g.num_chunks_x) * CHUNK_LEN + k % CHUNK_LEN)
        ((c / g.num_chunks_x) * CHUNK_LEN + k / CHUNK_LEN)⟩

/-- One synchronous generation as the spec describes it, for an infallible
per-cell transition `upd'`. -/
def specStep {T E : Type} [Inhabited T] (rule : RuleM T E) (upd' : T → List T → T)
    (g : Grid T) : Grid T :=
  { num_chunks_x := g.num_chunks_x
    num_chunks_y := g.num_chunks_y
    chunks := buildCells g fun x y =>
      upd' (g.cell_at x y) ((rule.neighbors x y g.width g.height).map fun p => g.cell_at p.1 p.2)
    buffer := g.chunks }

/-- `k` completed micro-steps: each one a fully successful pass of
`World2D::update`'s inner loops followed by a buffer swap. -/
def chainPasses {T E : Type} [Inhabited T] (rule : RuleM T E) :
    Nat → Grid T → Grid T → Prop
  | 0, g, g' => g' = g
  | Nat.succ k, g, g' =>
    ∃ gm, runCells rule (cellOrder g) g = (gm, none) ∧
      chainPasses rule k gm.swap_buffer g'

/-! ### A stateful rule model for the hidden script-engine state

`DynamicRule` (src/dynamic_rule.rs) registers the rhai-rand `RandomPackage`
on its engine, and every scripted method — `update` included — runs through
`call_fn_raw` on that same engine, so a user-supplied update script can draw
from the engine's random source, which persists and advances across calls.
The rng internals live in the external script runtime (the spec's
ScriptRuntime collaborator, spec section 6), not under src/.  Modelled from
the spec: the hidden source is an abstract state `S` threaded through every
per-cell `Rule.update` call; `World2D::update`'s loop (src/world.rs:131-161)
is re-traced verbatim with that state passed along. -/

structure RuleS (T E S : Type) where
  update : T → List T → S → Except E T × S
  neighbors : Int → Int → Int → Int → List (Nat × Nat)
  iteration_per_step : Nat

/-- The per-cell call of `World2D::update` with the engine state threaded. -/
def updValS {T E S : Type} [Inhabited T] (rule : RuleS T E S) (g : Grid T) (s : S)
    (x y : Nat) : Except E T × S :=
  rule.update (g.cell_at x y)
    ((rule.neighbors x y g.width g.height).map fun p => g.cell_at p.1 p.2) s

/-- One full-grid pass of `World2D::update`, threading the engine state. -/
def runCellsS {T E S : Type} [Inhabited T] (rule : RuleS T E S) :
    List (Nat × Nat) → Grid T → S → Grid T × S × Option E
  | [], g, s => (g, s, none)
  | p :: rest, g, s =>
    match updValS rule g s p.1 p.2 with
    | (Except.error e, s') => (g, s', some e)
    | (Except.ok v, s') => runCellsS rule rest (g.set_bufcell p.1 p.2 v) s'

/-- The `for _ in 0..iteration_per_step` loop with the engine state threaded. -/
def runStepsS {T E S : Type} [Inhabited T] (rule : RuleS T E S) :
    Nat → Grid T → S → Grid T × S × Option E
  | 0, g, s => (g, s, none)
  | Nat.succ n, g, s =>
    match runCellsS rule (cellOrder g) g s with
    | (g', s', some e) => (g', s', some e)
    | (g', s', none) => runStepsS rule n g'.swap_buffer s'

/-- `World2D::update` over a rule that may consume the hidden engine state. -/
def World2DS.update {T E S : Type} [Inhabited T] (rule : RuleS T E S) (s : S)
    (g : Grid T) : Grid T × S × Option E :=
  runStepsS rule rule.iteration_per_step g s

/-- Fixture for witnesses: an infallible rule whose update keeps the center
cell, with one micro-step per step. -/
def idRule : RuleM Bool Unit :=
  ⟨fun c _ => Except.ok c, VonNeumannNeighborhood.neighbors, 1⟩

/-- Fixture: the stateful counterpart of `idRule`; its update never reads or
advances the hidden engine state. -/
def idRuleS : RuleS Bool Unit Nat :=
  ⟨fun c _ s => (Except.ok c, s), VonNeumannNeighborhood.neighbors, 1⟩

/-- Modelled from the spec: a `DynamicRule` whose update script draws from
the engine's rhai-rand source (spec section 6's ScriptRuntime collaborator;
the package is registered in src/dynamic_rule.rs).  The hidden source is a
counter that every draw advances; the scripted update's result depends on
the draw, so it differs between the first 256 draws and the next 256. -/
def scriptedRandRule : RuleS Bool Unit Nat :=
  ⟨fun _ _ s => (Except.ok (decide (s < 256)), s + 1),
   VonNeumannNeighborhood.neighbors, 1⟩

/-- Fixture for the C2 counterexample: the per-cell update succeeds on false
cells (writing true) and fails on true cells; `iteration_per_step` is 2, so on
an all-false board the first pass completes and swaps, and the second pass
fails at its first cell. -/
def failSecondPassRule : RuleM Bool Unit :=
  ⟨fun c _ => if c then Except.error () else Except.ok true,
   VonNeumannNeighborhood.neighbors, 2⟩

/-! ### The Life rule (src/lifegame.rs)

`LifeGameRule::update` in src/lifegame.rs iterates rows then columns over the
whole board, counts the Alive cells among the nine cells of the (toroidally
wrapped) 3-by-3 block centred at (i, j) — the centre included — writes
Alive into the scratch buffer iff `nalive == 3 || (alive && nalive == 4)`,
and finally swaps `chunks` and `buffer`. -/

inductive LifeGameState : Type
  | Dead
  | Alive
deriving DecidableEq

instance : Inhabited LifeGameState := ⟨LifeGameState.Dead⟩

def LifeGameRule.update (board : Grid LifeGameState) : Grid LifeGameState :=
  let b := (loopPairs board.height board.width).foldl
    (fun b p =>
      let j := p.1
      let i := p.2
      let yprev := if j = 0 then b.height - 1 else j - 1
      let ynext := if j = b.height - 1 then 0 else j + 1
      let xprev := if i = 0 then b.width - 1 else i - 1
      let xnext := if i = b.width - 1 then 0 else i + 1
      let nalive := (([yprev, j, ynext].flatMap fun ny =>
          [xprev, i, xnext].map fun nx => (nx, ny))).countP
        fun q => decide (b.cell_at q.1 q.2 = LifeGameState.Alive)
      let board_is_alive := b.cell_at i j = LifeGameState.Alive
      b.set_bufcell i j
        (if nalive = 3 ∨ (board_is_alive ∧ nalive = 4) then LifeGameState.Alive
         else LifeGameState.Dead))
    board
  { b with chunks := b.buffer, buffer := b.chunks }

/-- A 16-by-16 single-chunk board, all Dead except the listed alive cells. -/
def lifeBoard (alive : List (Nat × Nat)) : Grid LifeGameState :=
  alive.foldl (fun g p => g.set_cell p.1 p.2 LifeGameState.Alive)
    (Grid.init 1 1 LifeGameState.Dead)

/-- The board of the glider scenario: alive at (1,0), (2,1), (0,2), (1,2), (2,2). -/
def gliderStart : Grid LifeGameState :=
  lifeBoard [(1, 0), (2, 1), (0, 2), (1, 2), (2, 2)]

/-- The same glider translated by (+1, +1): alive at (2,1), (3,2), (1,3), (2,3), (3,3). -/
def gliderShifted : Grid LifeGameState :=
  lifeBoard [(2, 1), (3, 2), (1, 3), (2, 3), (3, 3)]

/-- The three intermediate glider generations (current chunks plus the
scratch buffer that the double-buffered update leaves behind). -/
def gliderG1 : Grid LifeGameState :=
  Grid.mk 1 1 (lifeBoard [(0, 1), (2, 1), (1, 2), (2, 2), (1, 3)]).chunks
    gliderStart.chunks

def gliderG2 : Grid LifeGameState :=
  Grid.mk 1 1 (lifeBoard [(2, 1), (0, 2), (2, 2), (1, 3), (2, 3)]).chunks
    gliderG1.chunks

def gliderG3 : Grid LifeGameState :=
  Grid.mk 1 1 (lifeBoard [(1, 1), (2, 2), (3, 2), (1, 3), (2, 3)]).chunks
    gliderG2.chunks

def gliderG4 : Grid LifeGameState :=
  Grid.mk 1 1 gliderShifted.chunks gliderG3.chunks

/-! ### Hit-testing (src/board.rs `SquareGrid::clicked`, `HexGrid::clicked`)

Pixel coordinates are `f32` in the source; they are modelled as exact
rationals.  `HexGrid::clicked` multiplies by `3.0_f32.sqrt()`, modelled as an
arbitrary parameter `sqrt3` (the statements proved below hold for every
value of it, in particular for the f32 approximation of the square root). -/

/-- src/board.rs `SquareGrid::clicked`. -/
def SquareGrid.clicked {T : Type} (g : Grid T) (x y cell_width : ℚ) :
    Option (Nat × Nat) :=
  let x := x / cell_width
  let y := y / cell_width
  if x < 0 ∨ y < 0 then none
  else
    let x := (⌊x⌋).toNat
    let y := (⌊y⌋).toNat
    if g.width < x ∨ g.height < y then none
    else some (x, y)

/-- src/board.rs `HexGrid::clicked`. -/
def HexGrid.clicked {T : Type} (g : Grid T) (x y cell_width sqrt3 : ℚ) :
    Option (Nat × Nat) :=
  let diameter := cell_width
  let r := diameter * (1 / 2)
  if y < 0 then none
  else
    let y := (⌊y / (r * sqrt3)⌋).toNat
    let x := (if y % 2 = 0 then x else x - r) / diameter
    if x < 0 then none
    else
      let x := (⌊x⌋).toNat
      if g.width < x ∨ g.height < y then none
      else some (x, y)

/-! ## Theorems -/

/-! ### Generic list-write lemmas -/

theorem getD_set_self {α : Type} {l : List α} {k : Nat} {v d : α} (h : k < l.length) :
    (l.set k v).getD k d = v := by
  simp [List.getD_eq_getElem?_getD, List.getElem?_set_self', h]

theorem getD_set_ne {α : Type} {l : List α} {k m : Nat} {v d : α} (h : k ≠ m) :
    (l.set k v).getD m d = l.getD m d := by
  simp [List.getD_eq_getElem?_getD, List.getElem?_set_ne h]

theorem getD_replicate {α : Type} {n k : Nat} {v d : α} (h : k < n) :
    (List.replicate n v).getD k d = v := by
  simp [List.getD_eq_getElem?_getD, List.getElem?_replicate, h]

/-- Row-major index bound: `j * W + c < ny * W` when `j < ny` and `c < W`. -/
theorem rowMajor_lt {j c W ny : Nat} (hj : j < ny) (hc : c < W) : j * W + c < ny * W :=
  calc j * W + c < j * W + W := by omega
    _ = (j + 1) * W := by ring
    _ ≤ ny * W := Nat.mul_le_mul_right W hj

/-- As `rowMajor_lt`, with the product on the right commuted. -/
theorem rowMajor_lt' {j c W ny : Nat} (hj : j < ny) (hc : c < W) : j * W + c < W * ny :=
  Nat.mul_comm ny W ▸ rowMajor_lt hj hc

/-- Uniqueness of the Euclidean row-major decomposition. -/
theorem rowMajor_inj {j c j' c' W : Nat} (hc : c < W) (hc' : c' < W)
    (h : j * W + c = j' * W + c') : j = j' ∧ c = c' := by
  have hW : 0 < W := by omega
  have h1 : ∀ a b : Nat, b < W → (a * W + b) % W = b := by
    intro a b hb
    rw [Nat.add_comm, Nat.mul_comm, Nat.add_mul_mod_self_left, Nat.mod_eq_of_lt hb]
  have h2 : ∀ a b : Nat, b < W → (a * W + b) / W = a := by
    intro a b hb
    rw [Nat.add_comm, Nat.mul_comm, Nat.add_mul_div_left _ _ hW, Nat.div_eq_of_lt hb]
    omega
  constructor
  · have := congrArg (· / W) h
    simpa [h2 _ _ hc, h2 _ _ hc'] using this
  · have := congrArg (· % W) h
    simpa [h1 _ _ hc, h1 _ _ hc'] using this

theorem mem_loopPairs {ny nx : Nat} {p : Nat × Nat} :
    p ∈ loopPairs ny nx ↔ p.1 < ny ∧ p.2 < nx := by
  simp only [loopPairs, List.mem_flatMap, List.mem_range, List.mem_map]
  constructor
  · rintro ⟨j, hj, i, hi, rfl⟩; exact ⟨hj, hi⟩
  · rintro ⟨h1, h2⟩; exact ⟨p.1, h1, p.2, h2, rfl⟩

theorem writeAll_length {α : Type} (e : Nat → Nat → Nat) (F : Nat → Nat → α)
    (P : List (Nat × Nat)) (l : List α) : (writeAll e F P l).length = l.length := by
  induction P generalizing l with
  | nil => rfl
  | cons q P ih => simp [writeAll, List.foldl_cons] at ih ⊢; rw [ih, List.length_set]

theorem writeAll_getD_not_mem {α : Type} {e : Nat → Nat → Nat} {F : Nat → Nat → α}
    {P : List (Nat × Nat)} {l : List α} {k : Nat} {d : α}
    (h : ∀ p ∈ P, e p.1 p.2 ≠ k) :
    (writeAll e F P l).getD k d = l.getD k d := by
  induction P generalizing l with
  | nil => rfl
  | cons q P ih =>
    simp only [writeAll, List.foldl_cons] at ih ⊢
    rw [ih fun p hp => h p (List.mem_cons_of_mem _ hp),
      getD_set_ne (h q (List.mem_cons_self q P))]

theorem writeAll_getD_mem {α : Type} {e : Nat → Nat → Nat} {F : Nat → Nat → α}
    {P : List (Nat × Nat)} {l : List α} {k : Nat} {v d : α}
    (hk : k < l.length)
    (hmem : ∃ p ∈ P, e p.1 p.2 = k)
    (huni : ∀ p ∈ P, e p.1 p.2 = k → F p.1 p.2 = v) :
    (writeAll e F P l).getD k d = v := by
  induction P generalizing l with
  | nil => exact absurd hmem (by simp)
  | cons q P ih =>
    simp only [writeAll, List.foldl_cons] at ih ⊢
    by_cases htail : ∃ p ∈ P, e p.1 p.2 = k
    · exact ih (by rw [List.length_set]; exact hk) htail
        (fun p hp hpk => huni p (List.mem_cons_of_mem _ hp) hpk)
    · have hq : e q.1 q.2 = k := by
        rcases hmem with ⟨p, hp, hpk⟩
        rcases List.mem_cons.mp hp with rfl | hp'
        · exact hpk
        · exact absurd ⟨p, hp', hpk⟩ htail
      have hnone : ∀ p ∈ P, e p.1 p.2 ≠ k := fun p hp hpk => htail ⟨p, hp, hpk⟩
      have hfold : List.foldl (fun acc p => acc.set (e p.1 p.2) (F p.1 p.2))
          (l.set (e q.1 q.2) (F q.1 q.2)) P =
          writeAll e F P (l.set (e q.1 q.2) (F q.1 q.2)) := rfl
      rw [hfold, writeAll_getD_not_mem hnone, hq, getD_set_self hk]
      exact huni q (List.mem_cons_self q P) hq

theorem vecResize_length {α : Type} (l : List α) (len : Nat) (v : α) :
    (vecResize l len v).length = len := by
  unfold vecResize
  split <;> simp <;> omega

/-! ### Expansion lemmas (C3) -/

theorem Chunk.init_cell_at {T : Type} [Inhabited T] (i : T) (a b : Nat)
    (ha : a < CHUNK_LEN) (hb : b < CHUNK_LEN) : (Chunk.init i).cell_at a b = i := by
  have : b * CHUNK_LEN + a < CHUNK_SIZE := by
    simp only [CHUNK_LEN, CHUNK_SIZE] at *
    omega
  exact getD_replicate this

/-- The value an `expand_x`-style copy loop leaves at the target index of an
old chunk (cx, cy). -/
theorem expand_copy_getD_old {T : Type} [Inhabited T] (g : Grid T)
    (e : Nat → Nat → Nat) (l : List (Chunk T)) (cx cy : Nat)
    (hcy : cy < g.num_chunks_y) (hcx : cx < g.num_chunks_x)
    (hlt : e cy cx < l.length)
    (hinj : ∀ j i, j < g.num_chunks_y → i < g.num_chunks_x → e j i = e cy cx →
      j = cy ∧ i = cx) :
    (writeAll e (fun j i => g.chunk_at i j) (loopPairs g.num_chunks_y g.num_chunks_x) l).getD
      (e cy cx) default = g.chunk_at cx cy := by
  apply writeAll_getD_mem hlt
  · exact ⟨(cy, cx), mem_loopPairs.mpr ⟨hcy, hcx⟩, rfl⟩
  · intro p hp hpe
    obtain ⟨hp1, hp2⟩ := mem_loopPairs.mp hp
    obtain ⟨rfl, rfl⟩ := hinj p.1 p.2 hp1 hp2 hpe
    rfl

/-- The value an `expand`-style copy loop leaves at an index no old chunk is
copied to: the freshly allocated fill chunk. -/
theorem expand_copy_getD_new {T : Type} [Inhabited T] (g : Grid T) (len : Nat)
    (e : Nat → Nat → Nat) (fill : T) (k : Nat)
    (hk : k < len)
    (hmiss : ∀ j i, j < g.num_chunks_y → i < g.num_chunks_x → e j i ≠ k) :
    (writeAll e (fun j i => g.chunk_at i j) (loopPairs g.num_chunks_y g.num_chunks_x)
        (List.replicate len (Chunk.init fill))).getD k default = Chunk.init fill := by
  rw [writeAll_getD_not_mem]
  · exact getD_replicate hk
  · intro p hp
    obtain ⟨hp1, hp2⟩ := mem_loopPairs.mp hp
    exact hmiss p.1 p.2 hp1 hp2

/-- Cells that existed before `expand_x` keep their value at the shifted
coordinate. -/
theorem expand_x_cell_old {T : Type} [Inhabited T] (g : Grid T) (n : Int) (fill : T)
    (hn : n ≠ 0) (x y : Nat) (hx : x < g.width) (hy : y < g.height) :
    (g.expand_x n fill).cell_at (x + (if n < 0 then CHUNK_LEN * n.natAbs else 0)) y
      = g.cell_at x y := by
  have hCL : CHUNK_LEN = 16 := rfl
  have hxx : x < g.num_chunks_x * 16 := by simpa [Grid.width, hCL] using hx
  have hyy : y < g.num_chunks_y * 16 := by simpa [Grid.height, hCL] using hy
  have hcx : x / CHUNK_LEN < g.num_chunks_x := by rw [hCL]; omega
  have hcy : y / CHUNK_LEN < g.num_chunks_y := by rw [hCL]; omega
  simp only [Grid.expand_x, if_neg hn]
  rcases le_or_lt 0 n with hc | hc
  · simp only [if_neg (show ¬ n < 0 by omega), if_pos hc]
    simp only [Grid.cell_at, Nat.add_zero]
    have hmain := expand_copy_getD_old g
      (fun j i => j * (g.num_chunks_x + n.natAbs) + i)
      (List.replicate ((g.num_chunks_x + n.natAbs) * g.num_chunks_y) (Chunk.init fill))
      (x / CHUNK_LEN) (y / CHUNK_LEN) hcy hcx
      (by
        simp only [List.length_replicate]
        exact rowMajor_lt' hcy (show x / CHUNK_LEN < g.num_chunks_x + n.natAbs by omega))
      (by
        intro j i hj hi he
        exact rowMajor_inj (show i < g.num_chunks_x + n.natAbs by omega)
          (show x / CHUNK_LEN < g.num_chunks_x + n.natAbs by omega) he)
    rw [hmain]
    rfl
  · simp only [if_pos hc, if_neg (show ¬ 0 ≤ n by omega)]
    simp only [Grid.cell_at, hCL]
    have hd1 : (x + 16 * n.natAbs) / 16 = x / 16 + n.natAbs := by omega
    have hd2 : (x + 16 * n.natAbs) % 16 = x % 16 := by omega
    rw [hd1, hd2]
    have hcx16 : x / 16 < g.num_chunks_x := by omega
    have hcy16 : y / 16 < g.num_chunks_y := by omega
    have hmain := expand_copy_getD_old g
      (fun j i => j * (g.num_chunks_x + n.natAbs) + (i + n.natAbs))
      (List.replicate ((g.num_chunks_x + n.natAbs) * g.num_chunks_y) (Chunk.init fill))
      (x / 16) (y / 16) hcy16 hcx16
      (by
        simp only [List.length_replicate]
        exact rowMajor_lt' hcy16
          (show x / 16 + n.natAbs < g.num_chunks_x + n.natAbs by omega))
      (by
        intro j i hj hi he
        have := rowMajor_inj (show i + n.natAbs < g.num_chunks_x + n.natAbs by omega)
          (show x / 16 + n.natAbs < g.num_chunks_x + n.natAbs by omega) he
        omega)
    rw [hmain]
    rfl

/-- Cells introduced by `expand_x` hold the fill value. -/
theorem expand_x_cell_new {T : Type} [Inhabited T] (g : Grid T) (n : Int) (fill : T)
    (hn : n ≠ 0) (x y : Nat)
    (hx : x < (g.expand_x n fill).width) (hy : y < g.height)
    (hreg : (n < 0 ∧ x < CHUNK_LEN * n.natAbs) ∨ (0 < n ∧ g.width ≤ x)) :
    (g.expand_x n fill).cell_at x y = fill := by
  have hCL : CHUNK_LEN = 16 := rfl
  have hyy : y < g.num_chunks_y * 16 := by simpa [Grid.height, hCL] using hy
  have hxx : x < (g.num_chunks_x + n.natAbs) * 16 := by
    simpa [Grid.expand_x, if_neg hn, Grid.width, hCL] using hx
  have hcy16 : y / 16 < g.num_chunks_y := by omega
  have hmod : x % CHUNK_LEN < CHUNK_LEN := Nat.mod_lt _ (by decide)
  have hmod' : y % CHUNK_LEN < CHUNK_LEN := Nat.mod_lt _ (by decide)
  simp only [Grid.expand_x, if_neg hn]
  simp only [Grid.cell_at, hCL]
  have hnew := expand_copy_getD_new g ((g.num_chunks_x + n.natAbs) * g.num_chunks_y)
    (fun j i => j * (g.num_chunks_x + n.natAbs) + (i + if 0 ≤ n then 0 else n.natAbs))
    fill ((y / 16) * (g.num_chunks_x + n.natAbs) + x / 16)
    (rowMajor_lt' hcy16 (show x / 16 < g.num_chunks_x + n.natAbs by omega))
    (by
      intro j i hj hi he
      have := rowMajor_inj
        (show i + (if 0 ≤ n then 0 else n.natAbs) < g.num_chunks_x + n.natAbs by
          split <;> omega)
        (show x / 16 < g.num_chunks_x + n.natAbs by omega) he
      rcases hreg with ⟨hneg, hxr⟩ | ⟨hpos, hxr⟩
      · rw [hCL] at hxr
        rw [if_neg (show ¬ 0 ≤ n by omega)] at this
        omega
      · rw [if_pos (show 0 ≤ n by omega)] at this
        simp only [Grid.width, hCL] at hxr
        omega)
  rw [hnew]
  exact Chunk.init_cell_at fill _ _ (by rw [hCL] at hmod; omega) (by rw [hCL] at hmod'; omega)

/-- Cells that existed before `expand_y` keep their value at the shifted
coordinate. -/
theorem expand_y_cell_old {T : Type} [Inhabited T] (g : Grid T) (n : Int) (fill : T)
    (hn : n ≠ 0) (x y : Nat) (hx : x < g.width) (hy : y < g.height) :
    (g.expand_y n fill).cell_at x (y + (if n < 0 then CHUNK_LEN * n.natAbs else 0))
      = g.cell_at x y := by
  have hCL : CHUNK_LEN = 16 := rfl
  have hxx : x < g.num_chunks_x * 16 := by simpa [Grid.width, hCL] using hx
  have hyy : y < g.num_chunks_y * 16 := by simpa [Grid.height, hCL] using hy
  have hcx : x / CHUNK_LEN < g.num_chunks_x := by rw [hCL]; omega
  have hcy : y / CHUNK_LEN < g.num_chunks_y := by rw [hCL]; omega
  simp only [Grid.expand_y, if_neg hn]
  rcases le_or_lt 0 n with hc | hc
  · simp only [if_neg (show ¬ n < 0 by omega), if_pos hc]
    simp only [Grid.cell_at, Nat.add_zero]
    have hmain := expand_copy_getD_old g
      (fun j i => j * g.num_chunks_x + i)
      (List.replicate (g.num_chunks_x * (g.num_chunks_y + n.natAbs)) (Chunk.init fill))
      (x / CHUNK_LEN) (y / CHUNK_LEN) hcy hcx
      (by
        simp only [List.length_replicate]
        exact rowMajor_lt' (show y / CHUNK_LEN < g.num_chunks_y + n.natAbs by omega) hcx)
      (by
        intro j i hj hi he
        exact rowMajor_inj hi hcx he)
    rw [hmain]
    rfl
  · simp only [if_pos hc, if_neg (show ¬ 0 ≤ n by omega)]
    simp only [Grid.cell_at, hCL]
    have hd1 : (y + 16 * n.natAbs) / 16 = y / 16 + n.natAbs := by omega
    have hd2 : (y + 16 * n.natAbs) % 16 = y % 16 := by omega
    rw [hd1, hd2]
    have hcx16 : x / 16 < g.num_chunks_x := by omega
    have hcy16 : y / 16 < g.num_chunks_y := by omega
    have hmain := expand_copy_getD_old g
      (fun j i => (j + n.natAbs) * g.num_chunks_x + i)
      (List.replicate (g.num_chunks_x * (g.num_chunks_y + n.natAbs)) (Chunk.init fill))
      (x / 16) (y / 16) hcy16 hcx16
      (by
        simp only [List.length_replicate]
        exact rowMajor_lt' (show y / 16 + n.natAbs < g.num_chunks_y + n.natAbs by omega) hcx16)
      (by
        intro j i hj hi he
        have := rowMajor_inj hi hcx16 he
        omega)
    rw [hmain]
    rfl

/-- Cells introduced by `expand_y` hold the fill value. -/
theorem expand_y_cell_new {T : Type} [Inhabited T] (g : Grid T) (n : Int) (fill : T)
    (hn : n ≠ 0) (x y : Nat)
    (hx : x < g.width) (hy : y < (g.expand_y n fill).height)
    (hreg : (n < 0 ∧ y < CHUNK_LEN * n.natAbs) ∨ (0 < n ∧ g.height ≤ y)) :
    (g.expand_y n fill).cell_at x y = fill := by
  have hCL : CHUNK_LEN = 16 := rfl
  have hxx : x < g.num_chunks_x * 16 := by simpa [Grid.width, hCL] using hx
  have hyy : y < (g.num_chunks_y + n.natAbs) * 16 := by
    simpa [Grid.expand_y, if_neg hn, Grid.height, hCL] using hy
  have hcx16 : x / 16 < g.num_chunks_x := by omega
  have hmod : x % CHUNK_LEN < CHUNK_LEN := Nat.mod_lt _ (by decide)
  have hmod' : y % CHUNK_LEN < CHUNK_LEN := Nat.mod_lt _ (by decide)
  simp only [Grid.expand_y, if_neg hn]
  simp only [Grid.cell_at, hCL]
  have hnew := expand_copy_getD_new g (g.num_chunks_x * (g.num_chunks_y + n.natAbs))
    (fun j i => (j + if 0 ≤ n then 0 else n.natAbs) * g.num_chunks_x + i)
    fill ((y / 16) * g.num_chunks_x + x / 16)
    (rowMajor_lt' (show y / 16 < g.num_chunks_y + n.natAbs by omega) hcx16)
    (by
      intro j i hj hi he
      have := rowMajor_inj hi hcx16 he
      rcases hreg with ⟨hneg, hyr⟩ | ⟨hpos, hyr⟩
      · rw [hCL] at hyr
        rw [if_neg (show ¬ 0 ≤ n by omega)] at this
        omega
      · rw [if_pos (show 0 ≤ n by omega)] at this
        simp only [Grid.height, hCL] at hyr
        omega)
  rw [hnew]
  exact Chunk.init_cell_at fill _ _ (by rw [hCL] at hmod; omega) (by rw [hCL] at hmod'; omega)

/-- C3: for nonzero n, `expand_x(n, fill)` adds |n| chunk columns; every cell
that existed before expansion keeps its value at its new coordinate (x
shifted by 16|n| when n < 0, unchanged when n > 0), every newly introduced
cell of the current generation equals fill; `expand_x(0, fill)` and
`expand_y(0, fill)` leave the grid entirely unchanged; and the symmetric
statements hold for `expand_y` along the y axis. -/
theorem expand_preserves_content {T : Type} [Inhabited T] (g : Grid T) (n : Int) (fill : T) :
    g.expand_x 0 fill = g ∧ g.expand_y 0 fill = g ∧
    (n ≠ 0 →
      ((g.expand_x n fill).num_chunks_x = g.num_chunks_x + n.natAbs ∧
        (g.expand_x n fill).num_chunks_y = g.num_chunks_y) ∧
      (∀ x y, x < g.width → y < g.height →
        (g.expand_x n fill).cell_at (x + (if n < 0 then CHUNK_LEN * n.natAbs else 0)) y =
          g.cell_at x y) ∧
      (∀ x y, x < (g.expand_x n fill).width → y < g.height →
        ((n < 0 ∧ x < CHUNK_LEN * n.natAbs) ∨ (0 < n ∧ g.width ≤ x)) →
        (g.expand_x n fill).cell_at x y = fill) ∧
      ((g.expand_y n fill).num_chunks_y = g.num_chunks_y + n.natAbs ∧
        (g.expand_y n fill).num_chunks_x = g.num_chunks_x) ∧
      (∀ x y, x < g.width → y < g.height →
        (g.expand_y n fill).cell_at x (y + (if n < 0 then CHUNK_LEN * n.natAbs else 0)) =
          g.cell_at x y) ∧
      (∀ x y, x < g.width → y < (g.expand_y n fill).height →
        ((n < 0 ∧ y < CHUNK_LEN * n.natAbs) ∨ (0 < n ∧ g.height ≤ y)) →
        (g.expand_y n fill).cell_at x y = fill)) := by
  refine ⟨by simp [Grid.expand_x], by simp [Grid.expand_y], fun hn => ?_⟩
  refine ⟨⟨by simp [Grid.expand_x, if_neg hn], by simp [Grid.expand_x, if_neg hn]⟩,
    fun x y hx hy => expand_x_cell_old g n fill hn x y hx hy,
    fun x y hx hy hreg => expand_x_cell_new g n fill hn x y hx hy hreg,
    ⟨by simp [Grid.expand_y, if_neg hn], by simp [Grid.expand_y, if_neg hn]⟩,
    fun x y hx hy => expand_y_cell_old g n fill hn x y hx hy,
    fun x y hx hy hreg => expand_y_cell_new g n fill hn x y hx hy hreg⟩

/-- Witness for C3: appending one chunk column to an all-false 16-by-16 grid
keeps cell (0,0) and fills the new cell (16,0) with the fill value. -/
theorem expand_preserves_content_witness :
    ((Grid.init 1 1 false).expand_x 1 true).cell_at
        (0 + (if (1 : Int) < 0 then CHUNK_LEN * (1 : Int).natAbs else 0)) 0 =
      (Grid.init 1 1 false).cell_at 0 0 ∧
    ((Grid.init 1 1 false).expand_x 1 true).cell_at 16 0 = true := by
  have h := (expand_preserves_content (Grid.init 1 1 false) 1 true).2.2 (by decide)
  exact ⟨h.2.1 0 0 (by decide) (by decide),
    h.2.2.1 16 0 (by decide) (by decide) (Or.inr ⟨by decide, by decide⟩)⟩

/-! ### Shape-invariant lemmas (C4) -/

theorem clearChunks_length {T E : Type} (ds : Except E T) (l : List (Chunk T)) :
    (clearChunks ds l).1.length = l.length := by
  induction l with
  | nil => rfl
  | cons ch rest ih =>
    simp only [clearChunks]
    rcases hc : Chunk.clear ds ch with ⟨ch', oe⟩
    cases oe with
    | some e => simp
    | none =>
      rcases hr : clearChunks ds rest with ⟨rest', oe'⟩
      rw [hr] at ih
      simp only [List.length_cons]
      rw [ih]

theorem randChunks_length {T E Rng : Type} (rnd : Rng → Except E (T × Rng))
    (l : List (Chunk T)) (r : Rng) :
    (randChunks rnd l r).1.length = l.length := by
  induction l generalizing r with
  | nil => rfl
  | cons ch rest ih =>
    simp only [randChunks]
    rcases hc : Chunk.randomize rnd ch r with ⟨ch', r', oe⟩
    cases oe with
    | some e => simp
    | none => simp [ih r']

theorem set_cell_shape {T : Type} [Inhabited T] (g : Grid T) (x y : Nat) (v : T) :
    (g.set_cell x y v).num_chunks_x = g.num_chunks_x ∧
    (g.set_cell x y v).num_chunks_y = g.num_chunks_y ∧
    (g.set_cell x y v).chunks.length = g.chunks.length ∧
    (g.set_cell x y v).buffer = g.buffer :=
  ⟨rfl, rfl, by simp [Grid.set_cell], rfl⟩

theorem set_bufcell_shape {T : Type} [Inhabited T] (g : Grid T) (x y : Nat) (v : T) :
    (g.set_bufcell x y v).num_chunks_x = g.num_chunks_x ∧
    (g.set_bufcell x y v).num_chunks_y = g.num_chunks_y ∧
    (g.set_bufcell x y v).buffer.length = g.buffer.length ∧
    (g.set_bufcell x y v).chunks = g.chunks :=
  ⟨rfl, rfl, by simp [Grid.set_bufcell], rfl⟩

theorem pasteLoop_shape {T : Type} [Inhabited T] (cb : ClipBoard T) (xofs yofs : Nat)
    (L : List (Nat × Nat)) (g : Grid T) :
    (pasteLoop cb xofs yofs L g).1.num_chunks_x = g.num_chunks_x ∧
    (pasteLoop cb xofs yofs L g).1.num_chunks_y = g.num_chunks_y ∧
    (pasteLoop cb xofs yofs L g).1.chunks.length = g.chunks.length ∧
    (pasteLoop cb xofs yofs L g).1.buffer = g.buffer := by
  induction L generalizing g with
  | nil => exact ⟨rfl, rfl, rfl, rfl⟩
  | cons p rest ih =>
    simp only [pasteLoop]
    cases hc : cb.cell_at p.2 p.1 with
    | none => exact ih g
    | some c =>
      dsimp only
      by_cases hcond : p.2 + xofs < g.width ∧ p.1 + yofs < g.height
      · rw [if_pos hcond]
        have h1 := ih (g.set_cell (p.2 + xofs) (p.1 + yofs) c)
        have h2 := set_cell_shape g (p.2 + xofs) (p.1 + yofs) c
        exact ⟨h1.1.trans h2.1, h1.2.1.trans h2.2.1,
          h1.2.2.1.trans h2.2.2.1, h1.2.2.2.trans h2.2.2.2⟩
      · rw [if_neg hcond]
        exact ⟨rfl, rfl, rfl, rfl⟩

/-- C4: every Grid operation (init, expand_x, expand_y, swap_buffer, clear,
randomize, paste_clipboard, and a single-cell write through cell_at_mut)
preserves the invariant `chunks.length = buffer.length = num_chunks_x *
num_chunks_y`, with `width = num_chunks_x * 16` and `height = num_chunks_y *
16` holding definitionally. -/
theorem grid_shape_invariant {T E Rng : Type} [Inhabited T] (a b : Nat) (i : T)
    (g : Grid T) (n : Int) (fill : T) (ds : Except E T)
    (rnd : Rng → Except E (T × Rng)) (r : Rng)
    (xofs yofs : Nat) (cb : ClipBoard T) (x y : Nat) (v : T) :
    (Grid.init a b i).wfShape ∧
    g.width = g.num_chunks_x * CHUNK_LEN ∧
    g.height = g.num_chunks_y * CHUNK_LEN ∧
    (g.wfShape → (g.expand_x n fill).wfShape) ∧
    (g.wfShape → (g.expand_y n fill).wfShape) ∧
    (g.wfShape → g.swap_buffer.wfShape) ∧
    (g.wfShape → (g.clear ds).1.wfShape) ∧
    (g.wfShape → (g.randomize rnd r).1.wfShape) ∧
    (g.wfShape → (g.paste_clipboard xofs yofs cb).1.wfShape) ∧
    (g.wfShape → (g.set_cell x y v).wfShape) := by
  refine ⟨by simp [Grid.init, Grid.wfShape], rfl, rfl, ?_, ?_,
    fun h => ⟨h.2, h.1⟩, ?_, ?_, ?_, ?_⟩
  · intro h
    by_cases hn : n = 0
    · simpa [Grid.expand_x, hn] using h
    · simp [Grid.expand_x, if_neg hn, Grid.wfShape, writeAll_length, vecResize_length]
  · intro h
    by_cases hn : n = 0
    · simpa [Grid.expand_y, hn] using h
    · simp [Grid.expand_y, if_neg hn, Grid.wfShape, writeAll_length, vecResize_length]
  · intro h
    have hl := clearChunks_length ds g.chunks
    unfold Grid.clear
    rcases hr : clearChunks ds g.chunks with ⟨chunks', oe⟩
    rw [hr] at hl
    exact ⟨hl.trans h.1, h.2⟩
  · intro h
    have hl := randChunks_length rnd g.chunks r
    unfold Grid.randomize
    rcases hr : randChunks rnd g.chunks r with ⟨chunks', r', oe⟩
    rw [hr] at hl
    exact ⟨hl.trans h.1, h.2⟩
  · intro h
    have hs := pasteLoop_shape cb xofs yofs (loopPairs cb.y cb.x) g
    unfold Grid.paste_clipboard
    constructor
    · rw [hs.2.2.1, hs.1, hs.2.1]
      exact h.1
    · rw [hs.2.2.2, hs.1, hs.2.1]
      exact h.2
  · intro h
    have hs := set_cell_shape g x y v
    constructor
    · rw [hs.2.2.1, hs.1, hs.2.1]
      exact h.1
    · rw [hs.2.2.2, hs.1, hs.2.1]
      exact h.2

/-- Witness for C4: the shape invariant holds for a freshly initialised
2-by-3-chunk boolean grid and is kept by appending one chunk column. -/
theorem grid_shape_invariant_witness :
    (Grid.init 2 3 false).wfShape ∧ ((Grid.init 2 3 false).expand_x 1 true).wfShape := by
  have h := @grid_shape_invariant Bool Unit Unit _ 2 3 false
    (Grid.init 2 3 false) 1 true (Except.ok false) (fun r => Except.ok (false, r)) ()
    0 0 (ClipBoard.new 1 1) 0 0 false
  exact ⟨h.1, h.2.2.2.1 h.1⟩

/-! ### ClipBoard rotation lemmas (C9) -/

/-- Pointwise description of one rotation: the rotated clipboard reads its
cell (i, j) from the original's cell (x - 1 - j, i). -/
theorem ClipBoard.rotate_cell_at {T : Type} (cb : ClipBoard T) (i j : Nat)
    (hi : i < cb.y) (hj : j < cb.x) :
    cb.rotate.cell_at i j = cb.cell_at (cb.x - 1 - j) i := by
  simp only [ClipBoard.rotate, ClipBoard.cell_at]
  exact writeAll_getD_mem
    (by
      simp only [List.length_replicate]
      have := rowMajor_lt' hj hi
      omega)
    ⟨(j, i), mem_loopPairs.mpr ⟨hj, hi⟩, rfl⟩
    (by
      intro p hp hpe
      obtain ⟨hp1, hp2⟩ := mem_loopPairs.mp hp
      have h' : p.1 * cb.y + p.2 = j * cb.y + i := by omega
      obtain ⟨rfl, rfl⟩ := rowMajor_inj hp2 hi h'
      rfl)

/-- C9: rotating any clipboard four times restores its width, its height, and
the value (Some or None) of every cell. -/
theorem clipboard_rotate_four_cycle {T : Type} (cb : ClipBoard T) :
    cb.rotate.rotate.rotate.rotate.x = cb.x ∧
    cb.rotate.rotate.rotate.rotate.y = cb.y ∧
    (∀ x y, x < cb.x → y < cb.y →
      cb.rotate.rotate.rotate.rotate.cell_at x y = cb.cell_at x y) := by
  refine ⟨rfl, rfl, fun x y hx hy => ?_⟩
  have d1x : cb.rotate.x = cb.y := rfl
  have d1y : cb.rotate.y = cb.x := rfl
  have d2x : cb.rotate.rotate.x = cb.x := rfl
  have d2y : cb.rotate.rotate.y = cb.y := rfl
  have d3x : cb.rotate.rotate.rotate.x = cb.y := rfl
  have d3y : cb.rotate.rotate.rotate.y = cb.x := rfl
  rw [ClipBoard.rotate_cell_at _ x y (by rw [d3y]; exact hx) (by rw [d3x]; omega), d3x]
  rw [ClipBoard.rotate_cell_at _ _ x (by rw [d2y]; omega) (by rw [d2x]; exact hx), d2x]
  rw [ClipBoard.rotate_cell_at _ _ _ (by rw [d1y]; omega) (by rw [d1x]; omega), d1x]
  have e1 : cb.y - 1 - (cb.y - 1 - y) = y := by omega
  rw [e1, ClipBoard.rotate_cell_at _ _ _ hy (by omega)]
  have e3 : cb.x - 1 - (cb.x - 1 - x) = x := by omega
  rw [e3]

/-- Witness for C9: a 1-by-2 clipboard with one filled and one masked cell is
restored by four rotations. -/
theorem clipboard_rotate_four_cycle_witness :
    (ClipBoard.mk 1 2 [some true, none]).rotate.rotate.rotate.rotate.cell_at 0 0 =
      (ClipBoard.mk 1 2 [some true, none]).cell_at 0 0 ∧
    (ClipBoard.mk 1 2 [some true, none]).rotate.rotate.rotate.rotate.cell_at 0 1 =
      (ClipBoard.mk 1 2 [some true, none]).cell_at 0 1 := by
  have h := (clipboard_rotate_four_cycle (ClipBoard.mk 1 2 [some true, none])).2.2
  exact ⟨h 0 0 (by decide) (by decide), h 0 1 (by decide) (by decide)⟩

/-! ### Hit-testing lemmas (C10)

`clicked` guards with `width() < x` / `height() < y`, an inclusive bound: the
boundary coordinate x = width() (or y = height()) passes the guard, so the
returned coordinate is only bounded by `col ≤ width()` and `row ≤ height()`,
not strictly.  The counterexample below exhibits the boundary click; all the
arithmetic it involves (16.0 / 1.0, floor, integer comparisons) is exact in
f32, so it transfers verbatim to the Rust code. -/

/-- C10 counterexample: clicking at pixel (16, 0) with cell width 1 on a
single-chunk (16-cell-wide) grid returns Some((16, 0)), and 16 is not a valid
column (not strictly below the width). -/
theorem clicked_in_bounds_counterexample :
    SquareGrid.clicked (Grid.init 1 1 false) 16 0 1 = some (16, 0) ∧
    ¬ (16 < (Grid.init 1 1 false).width) := by
  constructor
  · norm_num [SquareGrid.clicked, Grid.width, Grid.init, CHUNK_LEN]
    decide
  · decide

/-- C10 amended: whenever `SquareGrid::clicked` or `HexGrid::clicked` returns
Some((col, row)), the returned coordinate satisfies the inclusive bounds
col ≤ width() and row ≤ height(). -/
theorem clicked_le_bounds {T : Type} (g : Grid T) (x y cell_width sqrt3 : ℚ)
    (_hcw : 0 < cell_width) (col row : Nat) :
    (SquareGrid.clicked g x y cell_width = some (col, row) →
      col ≤ g.width ∧ row ≤ g.height) ∧
    (HexGrid.clicked g x y cell_width sqrt3 = some (col, row) →
      col ≤ g.width ∧ row ≤ g.height) := by
  constructor
  · intro h
    simp only [SquareGrid.clicked] at h
    split_ifs at h with h1 h2
    simp only [Option.some.injEq, Prod.mk.injEq] at h
    obtain ⟨rfl, rfl⟩ := h
    push_neg at h2
    omega
  · intro h
    simp only [HexGrid.clicked] at h
    split_ifs at h
    all_goals
      simp only [Option.some.injEq, Prod.mk.injEq] at h
      obtain ⟨rfl, rfl⟩ := h
      push_neg at *
      omega

/-- Witness for the amended C10: the boundary click of the counterexample is
accepted by the inclusive bounds. -/
theorem clicked_le_bounds_witness :
    16 ≤ (Grid.init 1 1 false).width ∧ 0 ≤ (Grid.init 1 1 false).height := by
  have h := (clicked_le_bounds (Grid.init 1 1 false) 16 0 1 0
    (by norm_num) 16 0).1
    (by norm_num [SquareGrid.clicked, Grid.width, Grid.init, CHUNK_LEN]; decide)
  exact h

/-! ### Paste lemmas (C6)

`Grid::paste_clipboard` does not itself check that the paste target fits:
each unmasked clipboard cell goes straight through `cell_at_mut`, whose
`assert!` panics on the first out-of-bounds target, after the earlier
unmasked in-bounds cells of the row-major scan have already been written. -/

theorem pasteLoop_panics {T : Type} [Inhabited T] (cb : ClipBoard T) (xofs yofs : Nat)
    (L : List (Nat × Nat)) (g : Grid T)
    (hex : ∃ p ∈ L, (cb.cell_at p.2 p.1).isSome ∧
      (g.width ≤ p.2 + xofs ∨ g.height ≤ p.1 + yofs)) :
    (pasteLoop cb xofs yofs L g).2 = true := by
  induction L generalizing g with
  | nil => exact absurd hex (by simp)
  | cons q L ih =>
    simp only [pasteLoop]
    cases hc : cb.cell_at q.2 q.1 with
    | none =>
      apply ih
      rcases hex with ⟨p, hp, hsome, hbad⟩
      rcases List.mem_cons.mp hp with rfl | hp'
      · rw [hc] at hsome
        exact absurd hsome (by simp)
      · exact ⟨p, hp', hsome, hbad⟩
    | some c =>
      dsimp only
      by_cases hcond : q.2 + xofs < g.width ∧ q.1 + yofs < g.height
      · rw [if_pos hcond]
        apply ih
        rcases hex with ⟨p, hp, hsome, hbad⟩
        rcases List.mem_cons.mp hp with rfl | hp'
        · exact False.elim (by rcases hbad with hb | hb <;> omega)
        · exact ⟨p, hp', hsome, hbad⟩
      · rw [if_neg hcond]

/-- C6 counterexample: pasting a fully unmasked 1-by-17 clipboard at offset
(0,0) into a 16-by-16 grid panics (no error value is ever returned — the
Rust function's `anyhow::Result` is always `Ok` when it returns) and leaves
the sixteen in-bounds cells already overwritten. -/
theorem paste_clipboard_counterexample :
    ((Grid.init 1 1 false).paste_clipboard 0 0
        (ClipBoard.mk 1 17 (List.replicate 17 (some true)))).2 = true ∧
    ((Grid.init 1 1 false).paste_clipboard 0 0
        (ClipBoard.mk 1 17 (List.replicate 17 (some true)))).1.chunks ≠
      (Grid.init 1 1 false).chunks := by
  constructor
  · decide
  · decide

/-- C6 amended: when some unmasked clipboard cell's target lies outside the
grid bounds, `paste_clipboard` panics (the `assert!` in `cell_at_mut` fires at
the first such cell of the row-major scan) rather than returning a
recoverable error, and the unmasked in-bounds cells scanned earlier have
already been written into the grid. -/
theorem paste_clipboard_panics {T : Type} [Inhabited T] (g : Grid T)
    (xofs yofs : Nat) (cb : ClipBoard T)
    (h : ∃ i j, i < cb.x ∧ j < cb.y ∧ (cb.cell_at i j).isSome ∧
      (g.width ≤ i + xofs ∨ g.height ≤ j + yofs)) :
    (g.paste_clipboard xofs yofs cb).2 = true := by
  rcases h with ⟨i, j, hi, hj, hsome, hbad⟩
  exact pasteLoop_panics cb xofs yofs _ g ⟨(j, i), mem_loopPairs.mpr ⟨hj, hi⟩, hsome, hbad⟩

/-- Witness for the amended C6: the 1-by-17 clipboard of the counterexample
triggers the panic through the general theorem. -/
theorem paste_clipboard_panics_witness :
    ((Grid.init 1 1 false).paste_clipboard 0 0
        (ClipBoard.mk 1 17 (List.replicate 17 (some true)))).2 = true :=
  paste_clipboard_panics _ 0 0 _
    ⟨0, 16, by decide, by decide, by decide, Or.inr (by decide)⟩

/-! ### World2D.update lemmas (C1, C2, C7) -/

theorem rowMajor_div {j c W : Nat} (hc : c < W) : (j * W + c) / W = j := by
  rw [Nat.add_comm, Nat.mul_comm, Nat.add_mul_div_left _ _ (by omega : 0 < W),
    Nat.div_eq_of_lt hc]
  omega

theorem rowMajor_mod {j c W : Nat} (hc : c < W) : (j * W + c) % W = c := by
  rw [Nat.add_comm, Nat.mul_comm, Nat.add_mul_mod_self_left, Nat.mod_eq_of_lt hc]

theorem chunkIdx_decomp (c W : Nat) : (c / W) * W + c % W = c := by
  rw [Nat.mul_comm]
  exact Nat.div_add_mod c W

theorem Chunk.default_wf {T : Type} [Inhabited T] : (default : Chunk T).wf := by
  show (List.replicate CHUNK_SIZE (default : T)).length = CHUNK_SIZE
  simp

theorem chunk_init_wf {T : Type} (i : T) : (Chunk.init i).wf := by
  simp [Chunk.wf, Chunk.init]

theorem grid_init_wf {T : Type} [Inhabited T] (a b : Nat) (i : T) :
    (Grid.init a b i).wf := by
  refine ⟨⟨by simp [Grid.init], by simp [Grid.init]⟩, ?_, ?_⟩ <;>
  · intro c hc
    simp only [Grid.init, List.mem_replicate] at hc
    rw [hc.2]
    exact chunk_init_wf i

/-- The four nested loops of `World2D::update` visit exactly the in-range
cells. -/
theorem mem_cellOrder {T : Type} {g : Grid T} {p : Nat × Nat} :
    p ∈ cellOrder g ↔ p.1 < g.width ∧ p.2 < g.height := by
  obtain ⟨px, py⟩ := p
  have hCL : CHUNK_LEN = 16 := rfl
  simp only [cellOrder, List.mem_flatMap, List.mem_range, List.mem_map, Prod.mk.injEq,
    Grid.width, Grid.height, hCL]
  constructor
  · rintro ⟨cj, hcj, ci, hci, j, hj, i, hi, rfl, rfl⟩
    omega
  · rintro ⟨h1, h2⟩
    exact ⟨py / 16, by omega, px / 16, by omega, py % 16, by omega, px % 16, by omega,
      by omega, by omega⟩

theorem cell_at_congr {T : Type} [Inhabited T] {g1 g2 : Grid T}
    (hc : g1.chunks = g2.chunks) (hx : g1.num_chunks_x = g2.num_chunks_x)
    (x y : Nat) : g1.cell_at x y = g2.cell_at x y := by
  simp [Grid.cell_at, hc, hx]

theorem updVal_congr {T E : Type} [Inhabited T] (rule : RuleM T E) {g1 g2 : Grid T}
    (hc : g1.chunks = g2.chunks) (hx : g1.num_chunks_x = g2.num_chunks_x)
    (hy : g1.num_chunks_y = g2.num_chunks_y) (x y : Nat) :
    updVal rule g1 x y = updVal rule g2 x y := by
  have hw : g1.width = g2.width := by simp [Grid.width, hx]
  have hh : g1.height = g2.height := by simp [Grid.height, hy]
  have hcell : ∀ a b, g1.cell_at a b = g2.cell_at a b := cell_at_congr hc hx
  simp only [updVal, hw, hh, hcell]

theorem set_bufcell_wf {T : Type} [Inhabited T] {g : Grid T} (hwf : g.wf)
    (x y : Nat) (v : T) : (g.set_bufcell x y v).wf := by
  obtain ⟨⟨hcl, hbl⟩, hcw, hbw⟩ := hwf
  refine ⟨⟨hcl, ?_⟩, hcw, ?_⟩
  · simp [Grid.set_bufcell, List.length_set, hbl]
  · intro c hc
    simp only [Grid.set_bufcell] at hc
    rcases List.mem_or_eq_of_mem_set hc with hc' | rfl
    · exact hbw c hc'
    · show (Chunk.set_cell _ _ _ _).cells.length = CHUNK_SIZE
      simp only [Chunk.set_cell, List.length_set]
      by_cases hidx : (y / CHUNK_LEN) * g.num_chunks_x + x / CHUNK_LEN < g.buffer.length
      · rw [List.getD_eq_getElem _ _ hidx]
        exact hbw _ (List.getElem_mem hidx)
      · rw [List.getD_eq_default _ _ (le_of_not_lt hidx)]
        exact Chunk.default_wf

/-- Reading back the buffer cell just written. -/
theorem bufcell_at_set_eq {T : Type} [Inhabited T] {g : Grid T} (hwf : g.wf)
    {x y : Nat} (hx : x < g.width) (hy : y < g.height) (v : T) :
    (g.set_bufcell x y v).bufcell_at x y = v := by
  obtain ⟨⟨hcl, hbl⟩, hcw, hbw⟩ := hwf
  have hCL : CHUNK_LEN = 16 := rfl
  have hxx : x < g.num_chunks_x * 16 := by simpa [Grid.width, hCL] using hx
  have hyy : y < g.num_chunks_y * 16 := by simpa [Grid.height, hCL] using hy
  have hidx : (y / CHUNK_LEN) * g.num_chunks_x + x / CHUNK_LEN < g.buffer.length := by
    rw [hbl]
    exact rowMajor_lt' (by rw [hCL]; omega) (by rw [hCL]; omega)
  have hchunk : (g.buffer.getD ((y / CHUNK_LEN) * g.num_chunks_x + x / CHUNK_LEN)
      default).cells.length = CHUNK_SIZE := by
    rw [List.getD_eq_getElem _ _ hidx]
    exact hbw _ (List.getElem_mem hidx)
  simp only [Grid.set_bufcell, Grid.bufcell_at]
  rw [getD_set_self hidx]
  simp only [Chunk.set_cell, Chunk.cell_at]
  rw [getD_set_self]
  rw [hchunk]
  simp only [CHUNK_SIZE, hCL]
  omega

/-- Writing one buffer cell leaves every other (in-range) buffer cell alone. -/
theorem bufcell_at_set_ne {T : Type} [Inhabited T] {g : Grid T} (hwf : g.wf)
    {x y x' y' : Nat} (hx : x < g.width) (hy : y < g.height)
    (hx' : x' < g.width) (hy' : y' < g.height) (hne : (x', y') ≠ (x, y)) (v : T) :
    (g.set_bufcell x y v).bufcell_at x' y' = g.bufcell_at x' y' := by
  obtain ⟨⟨hcl, hbl⟩, hcw, hbw⟩ := hwf
  have hCL : CHUNK_LEN = 16 := rfl
  have hxx : x < g.num_chunks_x * 16 := by simpa [Grid.width, hCL] using hx
  have hyy : y < g.num_chunks_y * 16 := by simpa [Grid.height, hCL] using hy
  have hxx' : x' < g.num_chunks_x * 16 := by simpa [Grid.width, hCL] using hx'
  have hyy' : y' < g.num_chunks_y * 16 := by simpa [Grid.height, hCL] using hy'
  simp only [Grid.set_bufcell, Grid.bufcell_at]
  by_cases hsame : (y' / CHUNK_LEN) * g.num_chunks_x + x' / CHUNK_LEN =
      (y / CHUNK_LEN) * g.num_chunks_x + x / CHUNK_LEN
  · -- same chunk: the inner write goes to a different cell slot
    have hdm := rowMajor_inj (by rw [hCL]; omega : x' / CHUNK_LEN < g.num_chunks_x)
      (by rw [hCL]; omega : x / CHUNK_LEN < g.num_chunks_x) hsame
    have hidx : (y / CHUNK_LEN) * g.num_chunks_x + x / CHUNK_LEN < g.buffer.length := by
      rw [hbl]
      exact rowMajor_lt' (by rw [hCL]; omega) (by rw [hCL]; omega)
    rw [hsame, getD_set_self hidx]
    simp only [Chunk.set_cell, Chunk.cell_at]
    rw [getD_set_ne]
    rw [hCL] at hdm ⊢
    have hne' : x' ≠ x ∨ y' ≠ y := by
      by_contra hcon
      push_neg at hcon
      exact hne (by simp [hcon.1, hcon.2])
    omega
  · rw [getD_set_ne (fun hh => hsame hh.symm)]

/-- A pass never touches the current generation or the chunk counts. -/
theorem runCells_chunks {T E : Type} [Inhabited T] (rule : RuleM T E)
    (L : List (Nat × Nat)) : ∀ g : Grid T,
    (runCells rule L g).1.chunks = g.chunks ∧
    (runCells rule L g).1.num_chunks_x = g.num_chunks_x ∧
    (runCells rule L g).1.num_chunks_y = g.num_chunks_y := by
  induction L with
  | nil => exact fun g => ⟨rfl, rfl, rfl⟩
  | cons p L ih =>
    intro g
    simp only [runCells]
    cases hu : updVal rule g p.1 p.2 with
    | error e => exact ⟨rfl, rfl, rfl⟩
    | ok v => exact ih (g.set_bufcell p.1 p.2 v)

theorem runCells_wf {T E : Type} [Inhabited T] (rule : RuleM T E)
    (L : List (Nat × Nat)) : ∀ g : Grid T, g.wf → (runCells rule L g).1.wf := by
  induction L with
  | nil => exact fun g hwf => hwf
  | cons p L ih =>
    intro g hwf
    simp only [runCells]
    cases hu : updVal rule g p.1 p.2 with
    | error e => exact hwf
    | ok v => exact ih (g.set_bufcell p.1 p.2 v) (set_bufcell_wf hwf p.1 p.2 v)

/-- A successful pass writes exactly the per-cell update results into the
buffer cells it visits and leaves the others alone. -/
theorem runCells_bufcells {T E : Type} [Inhabited T] (rule : RuleM T E)
    (L : List (Nat × Nat)) : ∀ g : Grid T, g.wf →
    (∀ p ∈ L, p.1 < g.width ∧ p.2 < g.height) →
    (runCells rule L g).2 = none →
    (∀ p ∈ L, ∃ v, updVal rule g p.1 p.2 = Except.ok v ∧
      (runCells rule L g).1.bufcell_at p.1 p.2 = v) ∧
    (∀ x y, x < g.width → y < g.height → (x, y) ∉ L →
      (runCells rule L g).1.bufcell_at x y = g.bufcell_at x y) := by
  induction L with
  | nil => exact fun g _ _ _ => ⟨by simp, fun x y _ _ _ => rfl⟩
  | cons p L ih =>
    intro g hwf hin hok
    simp only [runCells] at hok ⊢
    cases hu : updVal rule g p.1 p.2 with
    | error e =>
      rw [hu] at hok
      dsimp only at hok
      exact absurd hok (by simp)
    | ok v =>
      rw [hu] at hok
      dsimp only at hok ⊢
      have hwf1 : (g.set_bufcell p.1 p.2 v).wf := set_bufcell_wf hwf p.1 p.2 v
      have hin1 : ∀ q ∈ L, q.1 < (g.set_bufcell p.1 p.2 v).width ∧
          q.2 < (g.set_bufcell p.1 p.2 v).height :=
        fun q hq => hin q (List.mem_cons_of_mem _ hq)
      have hIH := ih (g.set_bufcell p.1 p.2 v) hwf1 hin1 hok
      have hcongr : ∀ a b, updVal rule (g.set_bufcell p.1 p.2 v) a b = updVal rule g a b :=
        fun a b => updVal_congr rule rfl rfl rfl a b
      have hp := hin p (List.mem_cons_self p L)
      constructor
      · intro q hq
        rcases List.mem_cons.mp hq with rfl | hq'
        · refine ⟨v, hu, ?_⟩
          by_cases hmem : q ∈ L
          · obtain ⟨v2, hv2, hbuf⟩ := hIH.1 q hmem
            rw [hcongr, hu] at hv2
            rw [hbuf]
            exact (Except.ok.inj hv2).symm
          · have hq2 : (q.1, q.2) ∉ L := by simpa using hmem
            rw [hIH.2 q.1 q.2 hp.1 hp.2 hq2]
            exact bufcell_at_set_eq hwf hp.1 hp.2 v
        · obtain ⟨v2, hv2, hbuf⟩ := hIH.1 q hq'
          rw [hcongr] at hv2
          exact ⟨v2, hv2, hbuf⟩
      · intro x y hx hy hnot
        simp only [List.mem_cons, not_or] at hnot
        rw [hIH.2 x y hx hy hnot.2]
        exact bufcell_at_set_ne hwf hp.1 hp.2 hx hy (by simpa using hnot.1) v

/-- When every per-cell update succeeds, a pass never reports an error. -/
theorem runCells_ok {T E : Type} [Inhabited T] (rule : RuleM T E)
    (hok : ∀ c ns, ∃ v, rule.update c ns = Except.ok v)
    (L : List (Nat × Nat)) : ∀ g : Grid T, (runCells rule L g).2 = none := by
  induction L with
  | nil => exact fun g => rfl
  | cons p L ih =>
    intro g
    simp only [runCells]
    cases hu : updVal rule g p.1 p.2 with
    | error e =>
      obtain ⟨v, hv⟩ := hok (g.cell_at p.1 p.2)
        ((rule.neighbors p.1 p.2 g.width g.height).map fun q => g.cell_at q.1 q.2)
      rw [updVal, hv] at hu
      exact absurd hu (by simp)
    | ok v => exact ih (g.set_bufcell p.1 p.2 v)

theorem Grid.eq_of_fields {T : Type} {g1 g2 : Grid T}
    (h1 : g1.num_chunks_x = g2.num_chunks_x) (h2 : g1.num_chunks_y = g2.num_chunks_y)
    (h3 : g1.chunks = g2.chunks) (h4 : g1.buffer = g2.buffer) : g1 = g2 := by
  obtain ⟨a1, b1, c1, d1⟩ := g1
  obtain ⟨a2, b2, c2, d2⟩ := g2
  simp_all

theorem buildCells_length {T : Type} (g : Grid T) (f : Nat → Nat → T) :
    (buildCells g f).length = g.num_chunks_x * g.num_chunks_y := by
  simp [buildCells]

theorem buildCells_wf {T : Type} (g : Grid T) (f : Nat → Nat → T) :
    ∀ c ∈ buildCells g f, c.wf := by
  intro c hc
  simp only [buildCells, List.mem_map, List.mem_range] at hc
  obtain ⟨i, hi, rfl⟩ := hc
  simp [Chunk.wf]

theorem buildCells_getD {T : Type} [Inhabited T] (g : Grid T) (f : Nat → Nat → T)
    {c : Nat} (hc : c < g.num_chunks_x * g.num_chunks_y) :
    (buildCells g f).getD c default =
      ⟨(List.range CHUNK_SIZE).map fun k =>
        f ((c % g.num_chunks_x) * CHUNK_LEN + k % CHUNK_LEN)
          ((c / g.num_chunks_x) * CHUNK_LEN + k / CHUNK_LEN)⟩ := by
  rw [List.getD_eq_getElem _ _ (by simpa [buildCells_length] using hc)]
  simp [buildCells]

set_option maxHeartbeats 1600000 in
set_option maxRecDepth 4096 in
/-- A grid whose buffer cells agree pointwise with `f` on the whole board has
`buildCells g0 f` as its buffer array. -/
theorem buffer_eq_buildCells {T : Type} [Inhabited T] (g0 gp : Grid T)
    (f : Nat → Nat → T) (hwf : gp.wf)
    (hx : gp.num_chunks_x = g0.num_chunks_x) (hy : gp.num_chunks_y = g0.num_chunks_y)
    (hcell : ∀ x y, x < g0.width → y < g0.height → gp.bufcell_at x y = f x y) :
    gp.buffer = buildCells g0 f := by
  have hCL : CHUNK_LEN = 16 := rfl
  have hlen : gp.buffer.length = g0.num_chunks_x * g0.num_chunks_y := by
    rw [hwf.1.2, hx, hy]
  apply List.ext_getElem (by rw [hlen, buildCells_length])
  intro c h1 h2
  have hc : c < g0.num_chunks_x * g0.num_chunks_y := by rwa [hlen] at h1
  have hncx : 0 < g0.num_chunks_x := by
    rcases Nat.eq_zero_or_pos g0.num_chunks_x with hz | hz
    · rw [hz] at hc
      simp at hc
    · exact hz
  have hmodc : c % g0.num_chunks_x < g0.num_chunks_x := Nat.mod_lt _ hncx
  have hdivc : c / g0.num_chunks_x < g0.num_chunks_y :=
    (Nat.div_lt_iff_lt_mul hncx).mpr (by rw [Nat.mul_comm]; exact hc)
  have hchwf : gp.buffer[c].cells.length = CHUNK_SIZE := hwf.2.2 _ (List.getElem_mem h1)
  have hrhs : (buildCells g0 f)[c] =
      ⟨(List.range CHUNK_SIZE).map fun k =>
        f ((c % g0.num_chunks_x) * CHUNK_LEN + k % CHUNK_LEN)
          ((c / g0.num_chunks_x) * CHUNK_LEN + k / CHUNK_LEN)⟩ := by
    rw [← List.getD_eq_getElem _ default h2]
    exact buildCells_getD g0 f hc
  rw [hrhs]
  have hcells : gp.buffer[c].cells =
      (List.range CHUNK_SIZE).map fun k =>
        f ((c % g0.num_chunks_x) * CHUNK_LEN + k % CHUNK_LEN)
          ((c / g0.num_chunks_x) * CHUNK_LEN + k / CHUNK_LEN) := by
    apply List.ext_getElem (by simp [hchwf])
    intro k hk1 hk2
    have hk : k < CHUNK_SIZE := hchwf ▸ hk1
    have hk256 : k < 256 := by simpa [CHUNK_SIZE, CHUNK_LEN] using hk
    -- the absolute coordinate of entry (c, k)
    have hxb : (c % g0.num_chunks_x) * 16 + k % 16 < g0.width := by
      simp only [Grid.width, hCL]
      omega
    have hyb : (c / g0.num_chunks_x) * 16 + k / 16 < g0.height := by
      simp only [Grid.height, hCL]
      omega
    have hbuf := hcell ((c % g0.num_chunks_x) * 16 + k % 16)
      ((c / g0.num_chunks_x) * 16 + k / 16) hxb hyb
    have hdx : ((c % g0.num_chunks_x) * 16 + k % 16) / 16 = c % g0.num_chunks_x := by omega
    have hmx : ((c % g0.num_chunks_x) * 16 + k % 16) % 16 = k % 16 := by omega
    have hdy : ((c / g0.num_chunks_x) * 16 + k / 16) / 16 = c / g0.num_chunks_x := by omega
    have hmy : ((c / g0.num_chunks_x) * 16 + k / 16) % 16 = k / 16 := by omega
    simp only [Grid.bufcell_at, Chunk.cell_at, hCL, hdx, hmx, hdy, hmy, hx] at hbuf
    rw [chunkIdx_decomp] at hbuf
    have hinner : k / 16 * 16 + k % 16 = k := by omega
    rw [hinner] at hbuf
    rw [List.getD_eq_getElem _ _ h1] at hbuf
    rw [List.getD_eq_getElem _ _ (hchwf ▸ hk : k < gp.buffer[c].cells.length)] at hbuf
    rw [hbuf]
    rw [List.getElem_map]
    simp only [List.getElem_range, hCL]
  calc gp.buffer[c] = ⟨gp.buffer[c].cells⟩ := rfl
    _ = _ := by rw [hcells]

theorem specStep_wf {T E : Type} [Inhabited T] (rule : RuleM T E)
    (upd' : T → List T → T) (g : Grid T) (hwf : g.wf) :
    (specStep rule upd' g).wf := by
  refine ⟨⟨?_, ?_⟩, ?_, ?_⟩
  · exact buildCells_length g
      (fun x y => upd' (g.cell_at x y)
        ((rule.neighbors x y g.width g.height).map fun p => g.cell_at p.1 p.2))
  · exact hwf.1.1
  · exact buildCells_wf g
      (fun x y => upd' (g.cell_at x y)
        ((rule.neighbors x y g.width g.height).map fun p => g.cell_at p.1 p.2))
  · exact hwf.2.1

/-- A fully successful pass followed by the buffer swap is exactly the spec's
synchronous generation. -/
theorem pass_swap_specStep {T E : Type} [Inhabited T] (rule : RuleM T E)
    (upd' : T → List T → T)
    (hok : ∀ c ns, rule.update c ns = Except.ok (upd' c ns))
    (g : Grid T) (hwf : g.wf) :
    runCells rule (cellOrder g) g = ((specStep rule upd' g).swap_buffer, none) := by
  have hok' : ∀ c ns, ∃ v, rule.update c ns = Except.ok v := fun c ns => ⟨_, hok c ns⟩
  have hnone := runCells_ok rule hok' (cellOrder g) g
  have hchx := runCells_chunks rule (cellOrder g) g
  have hwfp := runCells_wf rule (cellOrder g) g hwf
  have hin : ∀ p ∈ cellOrder g, p.1 < g.width ∧ p.2 < g.height :=
    fun p hp => mem_cellOrder.mp hp
  have hbuf := runCells_bufcells rule (cellOrder g) g hwf hin hnone
  rcases hr : runCells rule (cellOrder g) g with ⟨gp, oe⟩
  rw [hr] at hnone hchx hwfp hbuf
  subst hnone
  have hgp : gp = (specStep rule upd' g).swap_buffer := by
    refine Grid.eq_of_fields ?_ ?_ ?_ ?_
    · exact hchx.2.1
    · exact hchx.2.2
    · exact hchx.1
    · apply buffer_eq_buildCells g gp
        (fun x y => upd' (g.cell_at x y)
          ((rule.neighbors x y g.width g.height).map fun p => g.cell_at p.1 p.2))
        hwfp hchx.2.1 hchx.2.2
      intro x y hx hy
      obtain ⟨v, hv, hb⟩ := hbuf.1 (x, y) (mem_cellOrder.mpr ⟨hx, hy⟩)
      rw [updVal, hok] at hv
      rw [hb]
      exact (Except.ok.inj hv).symm
  rw [hgp]

theorem runSteps_spec {T E : Type} [Inhabited T] (rule : RuleM T E)
    (upd' : T → List T → T)
    (hok : ∀ c ns, rule.update c ns = Except.ok (upd' c ns)) :
    ∀ (n : Nat) (g : Grid T), g.wf →
      runSteps rule n g = ((fun h => specStep rule upd' h)^[n] g, none) := by
  intro n
  induction n with
  | zero => exact fun g _ => rfl
  | succ n ih =>
    intro g hwf
    have hps := pass_swap_specStep rule upd' hok g hwf
    simp only [runSteps]
    rw [hps]
    dsimp only
    have hswap2 : ((specStep rule upd' g).swap_buffer).swap_buffer =
        specStep rule upd' g := rfl
    rw [hswap2, ih (specStep rule upd' g) (specStep_wf rule upd' g hwf),
      Function.iterate_succ_apply]

/-- Pointwise content of the spec-side generation. -/
theorem specStep_cell_at {T E : Type} [Inhabited T] (rule : RuleM T E)
    (upd' : T → List T → T) (g : Grid T) (x y : Nat)
    (hx : x < g.width) (hy : y < g.height) :
    (specStep rule upd' g).cell_at x y =
      upd' (g.cell_at x y)
        ((rule.neighbors x y g.width g.height).map fun p => g.cell_at p.1 p.2) := by
  have hCL : CHUNK_LEN = 16 := rfl
  have hxx : x < g.num_chunks_x * 16 := by simpa [Grid.width, hCL] using hx
  have hyy : y < g.num_chunks_y * 16 := by simpa [Grid.height, hCL] using hy
  have hcx : x / CHUNK_LEN < g.num_chunks_x := by rw [hCL]; omega
  have hcy : y / CHUNK_LEN < g.num_chunks_y := by rw [hCL]; omega
  have hidx : (y / CHUNK_LEN) * g.num_chunks_x + x / CHUNK_LEN <
      g.num_chunks_x * g.num_chunks_y :=
    rowMajor_lt' hcy hcx
  simp only [specStep, Grid.cell_at]
  rw [buildCells_getD g _ hidx]
  simp only [Chunk.cell_at]
  have hk : (y % CHUNK_LEN) * CHUNK_LEN + x % CHUNK_LEN < CHUNK_SIZE := by
    simp only [CHUNK_SIZE, hCL]
    omega
  rw [List.getD_eq_getElem _ _ (by simpa using hk), List.getElem_map]
  simp only [List.getElem_range]
  rw [rowMajor_mod hcx, rowMajor_div hcx]
  have hA : x / CHUNK_LEN * CHUNK_LEN +
      ((y % CHUNK_LEN) * CHUNK_LEN + x % CHUNK_LEN) % CHUNK_LEN = x := by
    rw [hCL]
    omega
  have hB : y / CHUNK_LEN * CHUNK_LEN +
      ((y % CHUNK_LEN) * CHUNK_LEN + x % CHUNK_LEN) / CHUNK_LEN = y := by
    rw [hCL]
    omega
  rw [hA, hB]

/-- C1: for a rule whose update succeeds on every cell, one `World2D::update`
call performs exactly `iteration_per_step` micro-steps in sequence, each
micro-step writing `Rule.update(current cell, neighbor states in the order
returned by the Neighborhood)` into every scratch-buffer cell and then
swapping the chunk and buffer arrays, and the call returns Ok: the result is
the spec-side `specStep` iterated `iteration_per_step` times, where one
`specStep` updates every in-range cell pointwise from the generation current
at its start and leaves the old generation in the scratch buffer. -/
theorem world2d_update_spec {T E : Type} [Inhabited T] (rule : RuleM T E)
    (upd' : T → List T → T)
    (hok : ∀ c ns, rule.update c ns = Except.ok (upd' c ns))
    (g : Grid T) (hwf : g.wf) :
    World2D.update rule g =
      ((fun h => specStep rule upd' h)^[rule.iteration_per_step] g, none) ∧
    (∀ x y, x < g.width → y < g.height →
      (specStep rule upd' g).cell_at x y =
        upd' (g.cell_at x y)
          ((rule.neighbors x y g.width g.height).map fun p => g.cell_at p.1 p.2)) ∧
    (specStep rule upd' g).buffer = g.chunks :=
  ⟨runSteps_spec rule upd' hok rule.iteration_per_step g hwf,
   fun x y hx hy => specStep_cell_at rule upd' g x y hx hy, rfl⟩

/-- Witness for C1: the identity rule on an all-false single-chunk board. -/
theorem world2d_update_spec_witness :
    World2D.update idRule (Grid.init 1 1 false) =
      ((fun h => specStep idRule (fun c _ => c) h)^[idRule.iteration_per_step]
        (Grid.init 1 1 false), none) :=
  (world2d_update_spec idRule (fun c _ => c) (fun _ _ => rfl)
    (Grid.init 1 1 false) (grid_init_wf 1 1 false)).1

/-- C2 counterexample: a rule with `iteration_per_step() = 2` whose update
succeeds on false cells and fails on true ones.  From an all-false board the
first pass succeeds and swaps; the second pass fails at its first cell, so
`World2D::update` returns the error with `chunks` holding the intermediate
generation — not byte-for-byte the chunks from before the call. -/
theorem world2d_update_error_counterexample :
    (World2D.update failSecondPassRule (Grid.init 1 1 false)).2.isSome = true ∧
    (World2D.update failSecondPassRule (Grid.init 1 1 false)).1.chunks ≠
      (Grid.init 1 1 false).chunks := by
  constructor
  · decide
  · decide

/-- C2 amended: if `Rule.update` fails partway through a full-grid pass
inside `World2D::update`, the call returns that error, no buffer swap is
performed for the failing pass, and the grid's chunks are byte-for-byte the
generation that was current at the start of the failing pass — i.e. the
state after some k < iteration_per_step() fully completed and swapped
passes; in particular, when the error occurs during the first pass (always
the case when `iteration_per_step() = 1`), the chunks are unchanged from
before the `World2D::update` call. -/
theorem world2d_update_error_aborts {T E : Type} [Inhabited T] (rule : RuleM T E)
    (g g' : Grid T) (e : E)
    (herr : World2D.update rule g = (g', some e)) :
    ∃ k gk, k < rule.iteration_per_step ∧ chainPasses rule k g gk ∧
      runCells rule (cellOrder gk) gk = (g', some e) ∧ g'.chunks = gk.chunks := by
  have main : ∀ (n : Nat) (g : Grid T), runSteps rule n g = (g', some e) →
      ∃ k gk, k < n ∧ chainPasses rule k g gk ∧
        runCells rule (cellOrder gk) gk = (g', some e) ∧ g'.chunks = gk.chunks := by
    intro n
    induction n with
    | zero =>
      intro g h
      exact absurd h (by simp [runSteps])
    | succ n ih =>
      intro g h
      simp only [runSteps] at h
      rcases hr : runCells rule (cellOrder g) g with ⟨gm, oe⟩
      rw [hr] at h
      cases oe with
      | some e2 =>
        dsimp only at h
        have h2 := Prod.mk.injEq gm (some e2) g' (some e) ▸ h
        simp only [Prod.mk.injEq, Option.some.injEq] at h
        obtain ⟨rfl, rfl⟩ := h
        refine ⟨0, g, by omega, rfl, hr, ?_⟩
        have := (runCells_chunks rule (cellOrder g) g).1
        rw [hr] at this
        exact this
      | none =>
        dsimp only at h
        obtain ⟨k, gk, hk, hchain, hrc, hch⟩ := ih gm.swap_buffer h
        exact ⟨k + 1, gk, by omega, ⟨gm, hr, hchain⟩, hrc, hch⟩
  exact main rule.iteration_per_step g herr

/-- Witness for the amended C2: the two-pass failing rule stops in its second
pass with chunks equal to the once-stepped generation. -/
theorem world2d_update_error_aborts_witness :
    ∃ k gk, k < failSecondPassRule.iteration_per_step ∧
      chainPasses failSecondPassRule k (Grid.init 1 1 false) gk ∧
      runCells failSecondPassRule (cellOrder gk) gk =
        (Grid.mk 1 1 [Chunk.init true] [Chunk.init false], some ()) ∧
      (Grid.mk 1 1 [Chunk.init true] [Chunk.init false]).chunks = gk.chunks :=
  world2d_update_error_aborts failSecondPassRule (Grid.init 1 1 false)
    (Grid.mk 1 1 [Chunk.init true] [Chunk.init false]) () (by decide)

/-- C7 is false as stated for scripted rules: `DynamicRule` registers the
rhai-rand package on its engine (src/dynamic_rule.rs) and `update` runs
through `call_fn_raw` on that same engine, so an update script can draw from
the hidden random source, which persists and advances across calls.  With
such a rule, two `update()` calls from the identical saved grid with the
identical rule value return different grids: the first call sees the first
256 draws of the hidden source, the second call the next 256. -/
theorem world2d_update_hidden_rng_counterexample :
    (World2DS.update scriptedRandRule 0 (Grid.init 1 1 false)).1 ≠
      (World2DS.update scriptedRandRule
        ((World2DS.update scriptedRandRule 0 (Grid.init 1 1 false)).2.1)
        (Grid.init 1 1 false)).1 := by decide

/-- C7 (amended): `World2D::update` threads no mutable state of its own;
determinism holds exactly for rules whose per-cell update is a pure function
of the center and neighbor states (every built-in rule, and any scripted
rule whose update script does not draw from the engine's rhai-rand source).
For such a rule the stateful run coincides with the pure model, leaves the
hidden engine state untouched, and a second `update()` call from the same
saved grid — starting from the engine state the first call left behind —
returns a bit-identical grid and the same error outcome.  For a scripted
rule that does draw from the hidden source the unrestricted claim fails. -/
theorem world2d_update_stateless_deterministic {T E S : Type} [Inhabited T]
    (rule : RuleS T E S) (pf : T → List T → Except E T)
    (hpure : ∀ c ns s, rule.update c ns s = (pf c ns, s)) (s : S) (g : Grid T) :
    World2DS.update rule s g =
      ((World2D.update (RuleM.mk pf rule.neighbors rule.iteration_per_step) g).1, s,
       (World2D.update (RuleM.mk pf rule.neighbors rule.iteration_per_step) g).2) ∧
    (World2DS.update rule ((World2DS.update rule s g).2.1) g).1 =
      (World2DS.update rule s g).1 ∧
    (World2DS.update rule ((World2DS.update rule s g).2.1) g).2.2 =
      (World2DS.update rule s g).2.2 := by
  have hcells : ∀ (L : List (Nat × Nat)) (g : Grid T) (s : S),
      runCellsS rule L g s =
        ((runCells (RuleM.mk pf rule.neighbors rule.iteration_per_step) L g).1, s,
         (runCells (RuleM.mk pf rule.neighbors rule.iteration_per_step) L g).2) := by
    intro L
    induction L with
    | nil => intro g s; rfl
    | cons p rest ih =>
      intro g s
      have hu : updValS rule g s p.1 p.2 =
          (updVal (RuleM.mk pf rule.neighbors rule.iteration_per_step) g p.1 p.2, s) := by
        simp only [updValS, updVal, hpure]
      simp only [runCellsS, runCells, hu]
      cases updVal (RuleM.mk pf rule.neighbors rule.iteration_per_step) g p.1 p.2 with
      | error e => rfl
      | ok v => exact ih _ _
  have hsteps : ∀ (n : Nat) (g : Grid T) (s : S),
      runStepsS rule n g s =
        ((runSteps (RuleM.mk pf rule.neighbors rule.iteration_per_step) n g).1, s,
         (runSteps (RuleM.mk pf rule.neighbors rule.iteration_per_step) n g).2) := by
    intro n
    induction n with
    | zero => intro g s; rfl
    | succ n ih =>
      intro g s
      rcases hres : runCells (RuleM.mk pf rule.neighbors rule.iteration_per_step)
        (cellOrder g) g with ⟨g', oe⟩
      simp only [runStepsS, runSteps, hcells, hres]
      cases oe with
      | none => exact ih _ _
      | some e => rfl
  have h1 : World2DS.update rule s g =
      ((World2D.update (RuleM.mk pf rule.neighbors rule.iteration_per_step) g).1, s,
       (World2D.update (RuleM.mk pf rule.neighbors rule.iteration_per_step) g).2) :=
    hsteps _ _ _
  have hst : (World2DS.update rule s g).2.1 = s := by rw [h1]
  refine ⟨h1, ?_, ?_⟩ <;> rw [hst]

/-- Witness for C7: the stateless identity rule on the all-false board,
with hidden-state type `Nat` and initial engine state `0`. -/
theorem world2d_update_stateless_deterministic_witness :
    (World2DS.update idRuleS 0 (Grid.init 1 1 false) =
      ((World2D.update (RuleM.mk (fun c _ => (Except.ok c : Except Unit Bool)) idRuleS.neighbors
          idRuleS.iteration_per_step) (Grid.init 1 1 false)).1, 0,
       (World2D.update (RuleM.mk (fun c _ => (Except.ok c : Except Unit Bool)) idRuleS.neighbors
          idRuleS.iteration_per_step) (Grid.init 1 1 false)).2)) ∧
    (World2DS.update idRuleS ((World2DS.update idRuleS 0 (Grid.init 1 1 false)).2.1)
        (Grid.init 1 1 false)).1 =
      (World2DS.update idRuleS 0 (Grid.init 1 1 false)).1 ∧
    (World2DS.update idRuleS ((World2DS.update idRuleS 0 (Grid.init 1 1 false)).2.1)
        (Grid.init 1 1 false)).2.2 =
      (World2DS.update idRuleS 0 (Grid.init 1 1 false)).2.2 :=
  world2d_update_stateless_deterministic idRuleS (fun c _ => (Except.ok c : Except Unit Bool))
    (fun _ _ _ => rfl) 0 (Grid.init 1 1 false)

set_option maxHeartbeats 4000000 in
theorem glider_step1 : LifeGameRule.update gliderStart = gliderG1 := by decide

set_option maxHeartbeats 4000000 in
theorem glider_step2 : LifeGameRule.update gliderG1 = gliderG2 := by decide

set_option maxHeartbeats 4000000 in
theorem glider_step3 : LifeGameRule.update gliderG2 = gliderG3 := by decide

set_option maxHeartbeats 4000000 in
theorem glider_step4 : LifeGameRule.update gliderG3 = gliderG4 := by decide

/-- C8: on the toroidal 16-by-16 single-chunk board holding a glider at
(1,0), (2,1), (0,2), (1,2), (2,2), four applications of the Life rule's
update yield exactly the glider translated by (+1,+1) — alive cells (2,1),
(3,2), (1,3), (2,3), (3,3) — with every other cell Dead. -/
theorem lifegame_glider_period4 :
    (LifeGameRule.update (LifeGameRule.update (LifeGameRule.update
      (LifeGameRule.update gliderStart)))).chunks = gliderShifted.chunks := by
  rw [glider_step1, glider_step2, glider_step3, glider_step4]
  rfl

theorem wrap_prev {a m : Int} (hm : 1 ≤ m) (h0 : 0 ≤ a) (hlt : a < m) :
    (if a = 0 then m - 1 else a - 1) = (a - 1) % m := by
  split_ifs with h
  · subst h
    rw [show (0 - 1 : Int) = (m - 1) - m by ring, Int.emod_sub_cancel,
      Int.emod_eq_of_lt (by omega) (by omega)]
  · rw [Int.emod_eq_of_lt (by omega) (by omega)]

theorem wrap_next {a m : Int} (h0 : 0 ≤ a) (hlt : a < m) :
    (if a = m - 1 then 0 else a + 1) = (a + 1) % m := by
  split_ifs with h
  · subst h
    rw [show (m - 1 + 1 : Int) = m by ring, Int.emod_self]
  · rw [Int.emod_eq_of_lt (by omega) (by omega)]

/-- C5: for the three topologies, `neighbors(x,y,w,h)` at an in-range
coordinate returns exactly 4 / 8 / 6 coordinates, each of which is the
toroidal (modular) wrap of the corresponding offset of (x,y) and hence lies
strictly inside the w-by-h grid; in particular the von Neumann neighbors of
(0,0) on a 10-by-10 grid include (9,0) and (0,9). -/
theorem neighbors_toroidal (x y w h : Int)
    (hw : 1 ≤ w) (hh : 1 ≤ h) (hx0 : 0 ≤ x) (hxw : x < w) (hy0 : 0 ≤ y) (hyh : y < h) :
    (VonNeumannNeighborhood.neighbors x y w h =
      [(x.toNat, ((y - 1) % h).toNat), (((x + 1) % w).toNat, y.toNat),
       (((x - 1) % w).toNat, y.toNat), (x.toNat, ((y + 1) % h).toNat)]) ∧
    (MooreNeighborhood.neighbors x y w h =
      [(((x - 1) % w).toNat, ((y - 1) % h).toNat), (x.toNat, ((y - 1) % h).toNat),
       (((x + 1) % w).toNat, ((y - 1) % h).toNat),
       (((x - 1) % w).toNat, y.toNat), (((x + 1) % w).toNat, y.toNat),
       (((x - 1) % w).toNat, ((y + 1) % h).toNat), (x.toNat, ((y + 1) % h).toNat),
       (((x + 1) % w).toNat, ((y + 1) % h).toNat)]) ∧
    (HexGridNeighborhood.neighbors x y w h =
      if y % 2 = 0 then
        [(((x - 1) % w).toNat, ((y - 1) % h).toNat), (x.toNat, ((y - 1) % h).toNat),
         (((x - 1) % w).toNat, y.toNat), (((x + 1) % w).toNat, y.toNat),
         (((x - 1) % w).toNat, ((y + 1) % h).toNat), (x.toNat, ((y + 1) % h).toNat)]
      else
        [(x.toNat, ((y - 1) % h).toNat), (((x + 1) % w).toNat, ((y - 1) % h).toNat),
         (((x - 1) % w).toNat, y.toNat), (((x + 1) % w).toNat, y.toNat),
         (x.toNat, ((y + 1) % h).toNat), (((x + 1) % w).toNat, ((y + 1) % h).toNat)]) ∧
    (VonNeumannNeighborhood.neighbors x y w h).length = 4 ∧
    (MooreNeighborhood.neighbors x y w h).length = 8 ∧
    (HexGridNeighborhood.neighbors x y w h).length = 6 ∧
    (∀ p ∈ VonNeumannNeighborhood.neighbors x y w h, p.1 < w.toNat ∧ p.2 < h.toNat) ∧
    (∀ p ∈ MooreNeighborhood.neighbors x y w h, p.1 < w.toNat ∧ p.2 < h.toNat) ∧
    (∀ p ∈ HexGridNeighborhood.neighbors x y w h, p.1 < w.toNat ∧ p.2 < h.toNat) ∧
    ((9, 0) ∈ VonNeumannNeighborhood.neighbors 0 0 10 10 ∧
     (0, 9) ∈ VonNeumannNeighborhood.neighbors 0 0 10 10) := by
  have hxp := wrap_prev hw hx0 hxw
  have hxn := wrap_next hx0 hxw
  have hyp := wrap_prev hh hy0 hyh
  have hyn := wrap_next hy0 hyh
  have hbw : ∀ a : Int, (a % w).toNat < w.toNat := by
    intro a
    have h1 := Int.emod_nonneg a (by omega : w ≠ 0)
    have h2 := Int.emod_lt_of_pos a (by omega : 0 < w)
    omega
  have hbh : ∀ a : Int, (a % h).toNat < h.toNat := by
    intro a
    have h1 := Int.emod_nonneg a (by omega : h ≠ 0)
    have h2 := Int.emod_lt_of_pos a (by omega : 0 < h)
    omega
  have hxT : x.toNat < w.toNat := by omega
  have hyT : y.toNat < h.toNat := by omega
  have hVN : VonNeumannNeighborhood.neighbors x y w h =
      [(x.toNat, ((y - 1) % h).toNat), (((x + 1) % w).toNat, y.toNat),
       (((x - 1) % w).toNat, y.toNat), (x.toNat, ((y + 1) % h).toNat)] := by
    simp only [VonNeumannNeighborhood.neighbors]
    rw [hxp, hxn, hyp, hyn]
  have hMo : MooreNeighborhood.neighbors x y w h =
      [(((x - 1) % w).toNat, ((y - 1) % h).toNat), (x.toNat, ((y - 1) % h).toNat),
       (((x + 1) % w).toNat, ((y - 1) % h).toNat),
       (((x - 1) % w).toNat, y.toNat), (((x + 1) % w).toNat, y.toNat),
       (((x - 1) % w).toNat, ((y + 1) % h).toNat), (x.toNat, ((y + 1) % h).toNat),
       (((x + 1) % w).toNat, ((y + 1) % h).toNat)] := by
    simp only [MooreNeighborhood.neighbors]
    rw [hxp, hxn, hyp, hyn]
  have hHx : HexGridNeighborhood.neighbors x y w h =
      if y % 2 = 0 then
        [(((x - 1) % w).toNat, ((y - 1) % h).toNat), (x.toNat, ((y - 1) % h).toNat),
         (((x - 1) % w).toNat, y.toNat), (((x + 1) % w).toNat, y.toNat),
         (((x - 1) % w).toNat, ((y + 1) % h).toNat), (x.toNat, ((y + 1) % h).toNat)]
      else
        [(x.toNat, ((y - 1) % h).toNat), (((x + 1) % w).toNat, ((y - 1) % h).toNat),
         (((x - 1) % w).toNat, y.toNat), (((x + 1) % w).toNat, y.toNat),
         (x.toNat, ((y + 1) % h).toNat), (((x + 1) % w).toNat, ((y + 1) % h).toNat)] := by
    simp only [HexGridNeighborhood.neighbors]
    rw [hxp, hxn, hyp, hyn]
  refine ⟨hVN, hMo, hHx, by rw [hVN]; rfl, by rw [hMo]; rfl,
    by rw [hHx]; split <;> rfl, ?_, ?_, ?_, by decide, by decide⟩
  · rw [hVN]
    intro p hp
    simp only [List.mem_cons, List.not_mem_nil, or_false] at hp
    rcases hp with rfl | rfl | rfl | rfl
    · exact ⟨hxT, hbh _⟩
    · exact ⟨hbw _, hyT⟩
    · exact ⟨hbw _, hyT⟩
    · exact ⟨hxT, hbh _⟩
  · rw [hMo]
    intro p hp
    simp only [List.mem_cons, List.not_mem_nil, or_false] at hp
    rcases hp with rfl | rfl | rfl | rfl | rfl | rfl | rfl | rfl <;>
      first
        | exact ⟨hxT, hbh _⟩
        | exact ⟨hbw _, hyT⟩
        | exact ⟨hbw _, hbh _⟩
  · rw [hHx]
    intro p hp
    split at hp <;>
    · simp only [List.mem_cons, List.not_mem_nil, or_false] at hp
      rcases hp with rfl | rfl | rfl | rfl | rfl | rfl <;>
        first
          | exact ⟨hxT, hbh _⟩
          | exact ⟨hbw _, hyT⟩
          | exact ⟨hbw _, hbh _⟩

/-- Witness for C5: the theorem applied at (x,y) = (3,0) on a 10-by-10 grid;
the von Neumann neighbor list wraps the top edge to the bottom row. -/
theorem neighbors_toroidal_witness :
    VonNeumannNeighborhood.neighbors 3 0 10 10 = [(3, 9), (4, 0), (2, 0), (3, 1)] := by
  have h := (neighbors_toroidal 3 0 10 10 (by norm_num) (by norm_num) (by norm_num)
    (by norm_num) (by norm_num) (by norm_num)).1
  rw [h]
  decide

end Miniascape
